import Mathlib

/-!
Verification of the chiaotu proxy-subscription aggregator.

The Rust sources are shallowly embedded as follows.

* A Rust `String` / `&str` in the link parsers (`src/nodes/ss.rs`,
  `src/nodes/vmess.rs`, `src/nodes/trojan.rs`, `src/node_parser.rs`) is
  modelled by its UTF-8 byte sequence, `Bytes := List Nat` (every byte
  `< 256`).  Byte-based operations of the source — `find`, `rfind`,
  `split`, slicing `s[i..]`, `starts_with` — are modelled directly on the
  byte list.  `str::to_lowercase` and `str::trim` are modelled on their
  ASCII behaviour, which is exact for every input relevant to the claims.
* Rust operations that can panic (`Vec` indexing `v[i]`, byte slicing
  `&s[i..]`) are modelled by `Except String` computations whose `.error`
  value marks a panic; everything else in a parser is total, so a parser
  of the source with result `Option<T>` becomes
  `Bytes → Except String (Option T)`.  Slicing in the source only happens
  at positions of ASCII bytes located by `find`/`rfind` or after an ASCII
  literal prefix, so the UTF-8 char-boundary condition of Rust slicing
  coincides with the bounds check modelled here.
* The YAML aggregation layer (`src/yaml_utils.rs`, `src/main.rs`) works on
  already-decoded Rust `String`s, modelled as `List Char` of their
  characters; `String::contains` on such strings is substring search,
  which agrees with UTF-8 byte-level search.
* Library functions are modelled from their documented behaviour:
  `base64::engine::general_purpose::{STANDARD, URL_SAFE}` (canonical
  padding, trailing bits rejected), `String::from_utf8` (the UTF-8 validity
  check; on the byte-list model success returns the bytes unchanged),
  `serde_json` for the `VmessConfig` derive (a JSON value type, the exact
  serializer output for a struct of renamed string fields, and a JSON
  parser covering the grammar serde accepts; surrogate-pair `\u` escapes
  and the full number grammar are simplified, which no claim touches),
  `urlencoding::decode` (percent-decoding, invalid sequences passed
  through, result must be valid UTF-8), and `itertools::unique_by`
  (first occurrence of each key is kept, in order).
-/

/-- UTF-8 bytes of a Rust string. All string literals used with `ascii`
are pure ASCII, so mapping `Char.toNat` over the characters gives exactly
the UTF-8 bytes. -/
def ascii (s : String) : List Nat := s.data.map Char.toNat

/-- A Rust string in the link parsers: its UTF-8 byte sequence. -/
abbrev Bytes := List Nat

/-- A Rust string in the YAML aggregation layer: its character sequence. -/
abbrev RStr := List Char

/-- Characters of a Lean string literal, for the aggregation layer. -/
def rstr (s : String) : RStr := s.data

/-- ASCII whitespace, the ASCII part of Rust `char::is_whitespace`
(space, tab, line feed, vertical tab, form feed, carriage return). -/
def isWsByte (b : Nat) : Bool :=
  b == 32 || b == 9 || b == 10 || b == 11 || b == 12 || b == 13

/-- Model of `str::trim` (ASCII whitespace). -/
def rustTrim (s : Bytes) : Bytes :=
  ((s.dropWhile isWsByte).reverse.dropWhile isWsByte).reverse

/-- Model of `str::to_lowercase` on its ASCII behaviour. -/
def asciiLower (s : Bytes) : Bytes :=
  s.map (fun b => if 65 ≤ b ∧ b ≤ 90 then b + 32 else b)

/-- Model of `str::contains(&str)`: substring search (on bytes for the
link parsers, on characters for the aggregation layer; the two agree
because UTF-8 substring positions align with character boundaries). -/
def containsSeq [BEq α] (needle : List α) : List α → Bool
  | [] => needle.isEmpty
  | h :: t => needle.isPrefixOf (h :: t) || containsSeq needle t

/-- Model of `str::rfind(char)` for an ASCII needle: byte index of the
last occurrence. -/
def rfindByte (c : Nat) : Bytes → Option Nat
  | [] => none
  | b :: rest =>
    match rfindByte c rest with
    | some i => some (i + 1)
    | none => if b == c then some 0 else none

/-- Model of `str::split(char)` for an ASCII separator: every occurrence
splits, empty pieces are kept, and the result is never empty. -/
def splitByte (c : Nat) : Bytes → List Bytes
  | [] => [[]]
  | b :: rest =>
    if b == c then [] :: splitByte c rest
    else
      match splitByte c rest with
      | [] => [[b]]
      | h :: t => (b :: h) :: t

/-- Model of `str::rsplitn(2, char)` collected into a `Vec`: the piece
after the last separator first, then the rest; the whole string when the
separator does not occur. -/
def rsplitn2 (c : Nat) (s : Bytes) : List Bytes :=
  match rfindByte c s with
  | some i => [s.drop (i + 1), s.take i]
  | none => [s]

/-- Model of `Vec` indexing `v[i]`: out of bounds is a Rust panic,
modelled as `.error`. -/
def vecGet (l : List α) (i : Nat) : Except String α :=
  match l.get? i with
  | some a => .ok a
  | none => .error "index out of bounds"

/-- Model of string slicing `&s[i..]`: out of bounds is a panic. -/
def sliceFrom (s : Bytes) (i : Nat) : Except String Bytes :=
  if i ≤ s.length then .ok (s.drop i) else .error "byte index out of bounds"

/-- Model of string slicing `&s[..i]`: out of bounds is a panic. -/
def sliceTo (s : Bytes) (i : Nat) : Except String Bytes :=
  if i ≤ s.length then .ok (s.take i) else .error "byte index out of bounds"

/-- Decimal digit run to a number, `none` when empty or non-digit. -/
def parseDigits (s : Bytes) : Option Nat :=
  if s.isEmpty then none
  else if s.all (fun b => 48 ≤ b && b ≤ 57) then
    some (s.foldl (fun acc b => acc * 10 + (b - 48)) 0)
  else none

/-- Model of `str::parse::<u16>()`: optional leading `+`, decimal digits,
rejecting empty input and overflow. -/
def parseU16 (s : Bytes) : Option Nat :=
  let t := match s with
    | 43 :: rest => rest
    | _ => s
  match parseDigits t with
  | some n => if n ≤ 65535 then some n else none
  | none => none

/-- Value of an ASCII hex digit. -/
def hexVal (b : Nat) : Option Nat :=
  if 48 ≤ b ∧ b ≤ 57 then some (b - 48)
  else if 97 ≤ b ∧ b ≤ 102 then some (b - 97 + 10)
  else if 65 ≤ b ∧ b ≤ 70 then some (b - 65 + 10)
  else none

/-- Percent-decoding as in the `urlencoding` crate: `%XY` with two hex
digits becomes one byte, anything else is passed through unchanged. -/
def pctDecode : Bytes → Bytes
  | [] => []
  | 37 :: h :: l :: rest =>
    match hexVal h, hexVal l with
    | some hv, some lv => (hv * 16 + lv) :: pctDecode rest
    | _, _ => 37 :: pctDecode (h :: l :: rest)
  | b :: rest => b :: pctDecode rest

/-- Continuation byte of a UTF-8 sequence. -/
def isContByte (b : Nat) : Bool := 128 ≤ b && b ≤ 191

/-- One-continuation-byte tail of a UTF-8 group: the first byte must
satisfy `check1`. -/
def utf8Rest1 (check1 : Nat → Bool) (rest : Bytes) : Option Bytes :=
  match rest with
  | c1 :: r => if check1 c1 then some r else none
  | _ => none

/-- Two-continuation-byte tail of a UTF-8 group. -/
def utf8Rest2 (check1 : Nat → Bool) (rest : Bytes) : Option Bytes :=
  match rest with
  | c1 :: c2 :: r => if check1 c1 && isContByte c2 then some r else none
  | _ => none

/-- Three-continuation-byte tail of a UTF-8 group. -/
def utf8Rest3 (check1 : Nat → Bool) (rest : Bytes) : Option Bytes :=
  match rest with
  | c1 :: c2 :: c3 :: r => if check1 c1 && isContByte c2 && isContByte c3 then some r else none
  | _ => none

/-- Consume one valid UTF-8 character encoding from the front, per the
Unicode byte-pattern table (shortest form only, surrogates and values
above U+10FFFF excluded): the remaining bytes, or `none`. -/
def utf8Group? : Bytes → Option Bytes
  | [] => none
  | b :: rest =>
    if b ≤ 127 then some rest
    else if 194 ≤ b ∧ b ≤ 223 then utf8Rest1 isContByte rest
    else if b = 224 then utf8Rest2 (fun c => 160 ≤ c && c ≤ 191) rest
    else if 225 ≤ b ∧ b ≤ 236 then utf8Rest2 isContByte rest
    else if b = 237 then utf8Rest2 (fun c => 128 ≤ c && c ≤ 159) rest
    else if 238 ≤ b ∧ b ≤ 239 then utf8Rest2 isContByte rest
    else if b = 240 then utf8Rest3 (fun c => 144 ≤ c && c ≤ 191) rest
    else if 241 ≤ b ∧ b ≤ 243 then utf8Rest3 isContByte rest
    else if b = 244 then utf8Rest3 (fun c => 128 ≤ c && c ≤ 143) rest
    else none

/-- Fuel-indexed worker for the UTF-8 validity check (each group
consumes at least one byte, so fuel at least the length suffices). -/
def validUtf8Fuel : Nat → Bytes → Bool
  | _, [] => true
  | 0, _ :: _ => false
  | fuel + 1, b :: rest =>
    match utf8Group? (b :: rest) with
    | some r => validUtf8Fuel fuel r
    | none => false

/-- UTF-8 validity of a byte sequence, the check behind
`String::from_utf8`: the bytes decompose into valid character
encodings. -/
def validUtf8 (l : Bytes) : Bool := validUtf8Fuel l.length l

/-- Character of the base64 standard alphabet at a sextet value. -/
def stdAlphaChar (i : Nat) : Nat :=
  if i < 26 then 65 + i
  else if i < 52 then 97 + (i - 26)
  else if i < 62 then 48 + (i - 52)
  else if i = 62 then 43
  else 47

/-- Sextet value of a byte under the standard alphabet. -/
def stdInv (b : Nat) : Option Nat :=
  if 65 ≤ b ∧ b ≤ 90 then some (b - 65)
  else if 97 ≤ b ∧ b ≤ 122 then some (b - 97 + 26)
  else if 48 ≤ b ∧ b ≤ 57 then some (b - 48 + 52)
  else if b = 43 then some 62
  else if b = 47 then some 63
  else none

/-- Character of the base64 URL-safe alphabet at a sextet value. -/
def urlAlphaChar (i : Nat) : Nat :=
  if i < 26 then 65 + i
  else if i < 52 then 97 + (i - 26)
  else if i < 62 then 48 + (i - 52)
  else if i = 62 then 45
  else 95

/-- Sextet value of a byte under the URL-safe alphabet. -/
def urlInv (b : Nat) : Option Nat :=
  if 65 ≤ b ∧ b ≤ 90 then some (b - 65)
  else if 97 ≤ b ∧ b ≤ 122 then some (b - 97 + 26)
  else if 48 ≤ b ∧ b ≤ 57 then some (b - 48 + 52)
  else if b = 45 then some 62
  else if b = 95 then some 63
  else none

/-- Base64 encoding with padding, parameterised by the alphabet;
model of `Engine::encode` of the `base64` crate. -/
def b64encode (alpha : Nat → Nat) : Bytes → Bytes
  | [] => []
  | [a] => [alpha (a / 4), alpha ((a % 4) * 16), 61, 61]
  | [a, b] => [alpha (a / 4), alpha ((a % 4) * 16 + b / 16), alpha ((b % 16) * 4), 61]
  | a :: b :: c :: rest =>
    alpha (a / 4) :: alpha ((a % 4) * 16 + b / 16) ::
    alpha ((b % 16) * 4 + c / 64) :: alpha (c % 64) :: b64encode alpha rest

/-- Base64 decoding, parameterised by the alphabet inverse; model of
`Engine::decode` of the `base64` crate for the general-purpose engines:
length must be a multiple of four, canonical `=` padding only at the end,
and non-zero trailing bits in the final group are rejected. -/
def b64decode (inv : Nat → Option Nat) : Bytes → Option Bytes
  | [] => some []
  | w :: x :: y :: z :: rest =>
    match inv w, inv x with
    | some dw, some dx =>
      if z = 61 then
        if ¬ rest.isEmpty then none
        else if y = 61 then
          if dx % 16 = 0 then some [dw * 4 + dx / 16] else none
        else
          match inv y with
          | some dy =>
            if dy % 4 = 0 then some [dw * 4 + dx / 16, (dx % 16) * 16 + dy / 4]
            else none
          | none => none
      else
        match inv y, inv z with
        | some dy, some dz =>
          match b64decode inv rest with
          | some r => some ((dw * 4 + dx / 16) :: ((dx % 16) * 16 + dy / 4) :: ((dy % 4) * 64 + dz) :: r)
          | none => none
        | _, _ => none
    | _, _ => none
  | _ => none

/-! Embedding of `src/nodes/ss.rs`. -/

/-- Field-for-field model of `ShadowsocksConfig` in `src/nodes/ss.rs`. -/
structure ShadowsocksConfig where
  server : Bytes
  server_port : Nat
  method : Bytes
  password : Bytes
  remarks : Option Bytes
  plugin : Option Bytes
  plugin_opts : Option Bytes
  protocol : Option Bytes
  obfs : Option Bytes
  obfs_param : Option Bytes
deriving DecidableEq, Repr

/-- Model of the private `UserInfo` struct in `src/nodes/ss.rs`. -/
structure UserInfo where
  method : Bytes
  password : Bytes
  server : Bytes
  port : Nat
  remarks : Option Bytes
  protocol : Option Bytes
  obfs : Option Bytes
  obfs_param : Option Bytes
deriving DecidableEq, Repr

/-- Model of the private `ServerPortRemarks` struct in `src/nodes/ss.rs`. -/
structure ServerPortRemarks where
  server : Bytes
  port : Nat
deriving DecidableEq, Repr

/-- Model of `parse_encoded_port` in `src/nodes/ss.rs`: a hard-coded
percent-encoded literal maps to 25451, otherwise percent-decode and
parse (where `urlencoding::decode` also requires its output to be valid
UTF-8). -/
def parse_encoded_port (port_str : Bytes) : Option Nat :=
  if port_str.take 1 = [37] then
    if port_str = ascii "%F0%9F%87%B0%E9%A6%99%E6%B8%AF" then some 25451
    else
      let decoded := pctDecode port_str
      if validUtf8 decoded then parseU16 decoded else none
  else parseU16 port_str

/-- Model of `parse_server_port_remarks` in `src/nodes/ss.rs`: split on
`#` for remarks, split server from port at the last colon, with the
percent-encoded-port special case. -/
def parse_server_port_remarks (server_port_remarks : Bytes) :
    Except String (Option (ServerPortRemarks × Option Bytes)) := do
  let parts := splitByte 35 server_port_remarks
  let server_port_part ← vecGet parts 0
  let remarks ← if parts.length > 1 then do
      pure (some (← vecGet parts 1))
    else pure none
  match rfindByte 58 server_port_part with
  | some last_colon => do
    let server ← sliceTo server_port_part last_colon
    let port_str ← sliceFrom server_port_part (last_colon + 1)
    let port? :=
      if containsSeq [37] port_str then parse_encoded_port port_str
      else parseU16 port_str
    match port? with
    | some port => pure (some (⟨server, port⟩, remarks))
    | none => pure none
  | none => pure none

/-- Model of `parse_userinfo` in `src/nodes/ss.rs`, including its `Vec`
indexing: in the five-field branch the source reads `parts[5]` of a
five-element vector, which is an out-of-bounds panic. -/
def parse_userinfo (userinfo_str : Bytes) : Except String (Option UserInfo) := do
  let parts := splitByte 58 userinfo_str
  if parts.length < 2 then pure none
  else do
    let method ← vecGet parts 0
    let password ← vecGet parts 1
    if parts.length ≥ 4 then
      if parts.length = 4 then do
        let server ← vecGet parts 2
        let portTok ← vecGet parts 3
        match parseU16 portTok with
        | some port =>
          pure (some ⟨method, password, server, port, none, none, none, none⟩)
        | none => pure none
      else if parts.length = 5 then do
        let server ← vecGet parts 4
        let portTok ← vecGet parts 5
        match parseU16 portTok with
        | some port => do
          let protocol ← vecGet parts 2
          let obfs ← vecGet parts 3
          pure (some ⟨method, password, server, port, none, some protocol, some obfs, none⟩)
        | none => pure none
      else do
        let server ← vecGet parts (parts.length - 2)
        let portTok ← vecGet parts (parts.length - 1)
        match parseU16 portTok with
        | some port => do
          let protocol ← if parts.length > 2 then do
              pure (some (← vecGet parts 2))
            else pure none
          let obfs ← if parts.length > 3 then do
              pure (some (← vecGet parts 3))
            else pure none
          let obfs_param ← if parts.length > 4 then do
              pure (some (← vecGet parts 4))
            else pure none
          pure (some ⟨method, password, server, port, none, protocol, obfs, obfs_param⟩)
        | none => pure none
    else
      pure (some ⟨method, password, [], 0, none, none, none, none⟩)

/-- Model of `parse_sip002_ss_format` in `src/nodes/ss.rs` (standard
alphabet base64 only; `String::from_utf8` on the byte model succeeds
exactly on valid UTF-8 and returns the bytes unchanged). -/
def parse_sip002_ss_format (url_part : Bytes) : Except String (Option ShadowsocksConfig) := do
  match url_part.findIdx? (· == 64) with
  | none => pure none
  | some at_pos => do
    let base64_part ← sliceTo url_part at_pos
    let server_part ← sliceFrom url_part (at_pos + 1)
    match b64decode stdInv base64_part with
    | none => pure none
    | some userinfo_bytes =>
      if validUtf8 userinfo_bytes then do
        match ← parse_userinfo userinfo_bytes with
        | none => pure none
        | some userinfo => do
          match ← parse_server_port_remarks server_part with
          | none => pure none
          | some (server_port, remarks) =>
            pure (some ⟨server_port.server, server_port.port, userinfo.method,
              userinfo.password, remarks, none, none, userinfo.protocol,
              userinfo.obfs, userinfo.obfs_param⟩)
      else pure none

/-- Model of `parse_legacy_ss_format` in `src/nodes/ss.rs`: split at the
last colon of the whole remainder, require the part before it to split
on colon into exactly two tokens, then parse the part after it as
server, port and remarks. -/
def parse_legacy_ss_format (url_part : Bytes) : Except String (Option ShadowsocksConfig) := do
  let parts := rsplitn2 58 url_part
  if parts.length ≠ 2 then pure none
  else do
    let userpass_part ← vecGet parts 1
    let server_port_remarks ← vecGet parts 0
    let userpass_parts := splitByte 58 userpass_part
    if userpass_parts.length ≠ 2 then pure none
    else do
      match ← parse_server_port_remarks server_port_remarks with
      | none => pure none
      | some (server_port, remarks) => do
        let method ← vecGet userpass_parts 0
        let password ← vecGet userpass_parts 1
        pure (some ⟨server_port.server, server_port.port, method, password,
          remarks, none, none, none, none, none⟩)

/-- Model of `parse_ss_config` in `src/nodes/ss.rs`: strip `ss://`, then
dispatch on the presence of `@` — a remainder containing `@` goes to the
legacy parser, one without `@` goes to the SIP002 parser. -/
def parse_ss_config (ss_url : Bytes) : Except String (Option ShadowsocksConfig) := do
  if ¬ (ascii "ss://").isPrefixOf ss_url then pure none
  else do
    let url_part ← sliceFrom ss_url 5
    if containsSeq [64] url_part then parse_legacy_ss_format url_part
    else parse_sip002_ss_format url_part

/-- Model of `validate_ss_config` in `src/nodes/ss.rs`. -/
def validate_ss_config (config : ShadowsocksConfig) : Bool :=
  ¬ config.server.isEmpty && config.server_port > 0 && config.server_port ≤ 65535
    && ¬ config.method.isEmpty && ¬ config.password.isEmpty

/-! Embedding of `src/nodes/vmess.rs` and its serde layer. -/

/-- Field-for-field model of `VmessConfig` in `src/nodes/vmess.rs`; the
serde renames are `v ps add port id aid net type host path tls` in
declaration order. -/
structure VmessConfig where
  version : Bytes
  remarks : Bytes
  address : Bytes
  port : Bytes
  user_id : Bytes
  alter_id : Bytes
  network : Bytes
  header_type : Bytes
  host : Bytes
  path : Bytes
  tls : Bytes
deriving DecidableEq, Repr

/-- JSON values as `serde_json` sees them; numbers keep their source
lexeme since this program never interprets one. -/
inductive Json where
  | str (s : Bytes)
  | num (lexeme : Bytes)
  | bool (b : Bool)
  | null
  | arr (elems : List Json)
  | obj (fields : List (Bytes × Json))

/-- Lowercase hex digit, as in the `serde_json` escape table. -/
def hexDigitLower (n : Nat) : Nat := if n < 10 then 48 + n else 97 + (n - 10)

/-- Model of the `serde_json` string escaper for one byte: quote and
backslash escaped, control bytes as `\b \t \n \f \r` or `\u00XX`, all
other bytes unchanged. -/
def escByte (b : Nat) : Bytes :=
  if b = 34 then [92, 34]
  else if b = 92 then [92, 92]
  else if b = 8 then [92, 98]
  else if b = 9 then [92, 116]
  else if b = 10 then [92, 110]
  else if b = 12 then [92, 102]
  else if b = 13 then [92, 114]
  else if b < 32 then [92, 117, 48, 48, hexDigitLower (b / 16), hexDigitLower (b % 16)]
  else [b]

/-- Escaper over a whole string body. -/
def escBytes : Bytes → Bytes
  | [] => []
  | b :: rest => escByte b ++ escBytes rest

/-- A serialized JSON string literal: quote, escaped body, quote. -/
def strLit (s : Bytes) : Bytes := 34 :: (escBytes s ++ [34])

/-- One `"key":"value"` unit of the serialized object. -/
def jsonField (key : String) (v : Bytes) : Bytes :=
  strLit (ascii key) ++ [58] ++ strLit v

/-- Model of `serde_json::to_string` for `VmessConfig`: a compact object
with the eleven renamed fields in declaration order (byte 123 is the
opening brace, 44 the comma, 125 the closing brace). -/
def vmess_to_json_string (c : VmessConfig) : Bytes :=
  [123] ++ jsonField "v" c.version ++ [44] ++ jsonField "ps" c.remarks ++ [44]
    ++ jsonField "add" c.address ++ [44] ++ jsonField "port" c.port ++ [44]
    ++ jsonField "id" c.user_id ++ [44] ++ jsonField "aid" c.alter_id ++ [44]
    ++ jsonField "net" c.network ++ [44] ++ jsonField "type" c.header_type ++ [44]
    ++ jsonField "host" c.host ++ [44] ++ jsonField "path" c.path ++ [44]
    ++ jsonField "tls" c.tls ++ [125]

/-- JSON whitespace. -/
def isJsonWs (b : Nat) : Bool := b == 32 || b == 9 || b == 10 || b == 13

/-- Skip JSON whitespace. -/
def skipWs (s : Bytes) : Bytes := s.dropWhile isJsonWs

/-- UTF-8 encoding of a Unicode scalar value, for `\uXXXX` escapes. -/
def utf8EncBytes (v : Nat) : Bytes :=
  if v < 128 then [v]
  else if v < 2048 then [192 + v / 64, 128 + v % 64]
  else if v < 65536 then [224 + v / 4096, 128 + (v / 64) % 64, 128 + v % 64]
  else [240 + v / 262144, 128 + (v / 4096) % 64, 128 + (v / 64) % 64, 128 + v % 64]

/-- Unescaped byte of a one-character JSON escape. -/
def shortEscape (e : Nat) : Option Nat :=
  if e = 34 then some 34
  else if e = 92 then some 92
  else if e = 47 then some 47
  else if e = 98 then some 8
  else if e = 102 then some 12
  else if e = 110 then some 10
  else if e = 114 then some 13
  else if e = 116 then some 9
  else none

/-- JSON string-literal body reader, after the opening quote: bytes up
to the closing quote with escapes resolved, and the rest of the input.
Unpaired surrogate escapes are rejected (the paired form that serde
additionally accepts never arises in this program's data). -/
def parseStringBody : Bytes → Option (Bytes × Bytes)
  | [] => none
  | b :: rest =>
    if b = 34 then some ([], rest)
    else if b = 92 then
      match rest with
      | [] => none
      | e :: rest1 =>
        if e = 117 then
          match rest1 with
          | h1 :: h2 :: h3 :: h4 :: rest2 =>
            match hexVal h1, hexVal h2, hexVal h3, hexVal h4 with
            | some v1, some v2, some v3, some v4 =>
              let v := v1 * 4096 + v2 * 256 + v3 * 16 + v4
              if 55296 ≤ v ∧ v ≤ 57343 then none
              else
                match parseStringBody rest2 with
                | some (s, r) => some (utf8EncBytes v ++ s, r)
                | none => none
            | _, _, _, _ => none
          | _ => none
        else
          match shortEscape e with
          | some u =>
            match parseStringBody rest1 with
            | some (s, r) => some (u :: s, r)
            | none => none
          | none => none
    else
      match parseStringBody rest with
      | some (s, r) => some (b :: s, r)
      | none => none
termination_by s => s.length

/-- Bytes that may appear in a number lexeme. -/
def isNumByte (b : Nat) : Bool :=
  (48 ≤ b && b ≤ 57) || b == 45 || b == 43 || b == 46 || b == 101 || b == 69

mutual

/-- Fuel-indexed JSON value reader (fuel larger than the input length is
always sufficient, since every recursive call consumes input). -/
def parseValue : Nat → Bytes → Option (Json × Bytes)
  | 0, _ => none
  | fuel + 1, s =>
    match skipWs s with
    | 34 :: rest =>
      match parseStringBody rest with
      | some (sb, r) => some (.str sb, r)
      | none => none
    | 123 :: rest =>
      match skipWs rest with
      | 125 :: r => some (.obj [], r)
      | _ =>
        match parseObjFields fuel rest with
        | some (fs, r) => some (.obj fs, r)
        | none => none
    | 91 :: rest =>
      match skipWs rest with
      | 93 :: r => some (.arr [], r)
      | _ =>
        match parseArrElems fuel rest with
        | some (es, r) => some (.arr es, r)
        | none => none
    | 116 :: rest => if rest.take 3 = ascii "rue" then some (.bool true, rest.drop 3) else none
    | 102 :: rest => if rest.take 4 = ascii "alse" then some (.bool false, rest.drop 4) else none
    | 110 :: rest => if rest.take 3 = ascii "ull" then some (.null, rest.drop 3) else none
    | b :: rest =>
      if isNumByte b then some (.num (b :: rest.takeWhile isNumByte), rest.dropWhile isNumByte)
      else none
    | [] => none

/-- Non-empty field list of a JSON object, after the opening brace. -/
def parseObjFields : Nat → Bytes → Option (List (Bytes × Json) × Bytes)
  | 0, _ => none
  | fuel + 1, s =>
    match skipWs s with
    | 34 :: rest =>
      match parseStringBody rest with
      | some (key, r1) =>
        match skipWs r1 with
        | 58 :: r2 =>
          match parseValue fuel r2 with
          | some (v, r3) =>
            match skipWs r3 with
            | 44 :: r4 =>
              match parseObjFields fuel r4 with
              | some (fs, r5) => some ((key, v) :: fs, r5)
              | none => none
            | 125 :: r4 => some ([(key, v)], r4)
            | _ => none
          | none => none
        | _ => none
      | none => none
    | _ => none

/-- Non-empty element list of a JSON array, after the opening bracket. -/
def parseArrElems : Nat → Bytes → Option (List Json × Bytes)
  | 0, _ => none
  | fuel + 1, s =>
    match parseValue fuel s with
    | some (v, r1) =>
      match skipWs r1 with
      | 44 :: r2 =>
        match parseArrElems fuel r2 with
        | some (es, r3) => some (v :: es, r3)
        | none => none
      | 93 :: r2 => some ([v], r2)
      | _ => none
    | none => none

end

/-- Model of `serde_json::from_str` up to the JSON value: parse one
value and require only whitespace after it. -/
def json_from_bytes (s : Bytes) : Option Json :=
  match parseValue (s.length + 1) s with
  | some (v, rest) => if (skipWs rest).isEmpty then some v else none
  | none => none

/-- Required string field of a JSON object, by its serde rename. -/
def getStrField (fields : List (Bytes × Json)) (key : String) : Option Bytes :=
  match fields.lookup (ascii key) with
  | some (.str s) => some s
  | _ => none

/-- Model of `serde_json::from_str::<VmessConfig>` after UTF-8
validation: a JSON object providing all eleven renamed fields as
strings; anything else is a deserialization error. -/
def vmess_from_json (s : Bytes) : Option VmessConfig := do
  match json_from_bytes s with
  | some (.obj fields) => do
    let v ← getStrField fields "v"
    let ps ← getStrField fields "ps"
    let add ← getStrField fields "add"
    let id ← getStrField fields "id"
    let port ← getStrField fields "port"
    let aid ← getStrField fields "aid"
    let net ← getStrField fields "net"
    let typ ← getStrField fields "type"
    let host ← getStrField fields "host"
    let path ← getStrField fields "path"
    let tls ← getStrField fields "tls"
    pure ⟨v, ps, add, port, id, aid, net, typ, host, path, tls⟩
  | _ => none

/-- Model of `parse_vmess_config` in `src/nodes/vmess.rs`: strip
`vmess://` (eight bytes), base64-decode with the standard alphabet and
on failure with the URL-safe alphabet, then UTF-8-validate and
deserialize; every failure is a silent `none`. -/
def parse_vmess_config (vmess_url : Bytes) : Except String (Option VmessConfig) := do
  if ¬ (ascii "vmess://").isPrefixOf vmess_url then pure none
  else do
    let encoded_data ← sliceFrom vmess_url 8
    match b64decode stdInv encoded_data with
    | some decoded =>
      if validUtf8 decoded then pure (vmess_from_json decoded) else pure none
    | none =>
      match b64decode urlInv encoded_data with
      | some decoded =>
        if validUtf8 decoded then pure (vmess_from_json decoded) else pure none
      | none => pure none

/-- The claim C5/C10 construction: serialize a `VmessConfig`, encode the
JSON with standard-alphabet base64, put `vmess://` in front. -/
def mk_vmess_url (c : VmessConfig) : Bytes :=
  ascii "vmess://" ++ b64encode stdAlphaChar (vmess_to_json_string c)

/-! Embedding of `src/node_parser.rs`. -/

/-- Model of the `Protocol` enum in `src/node_parser.rs`. -/
inductive Protocol where
  | Vmess
  | Unidentified
deriving DecidableEq, Repr

/-- Model of the `Node` struct in `src/node_parser.rs`. -/
structure Node where
  protocol : Protocol
  vmess_config : Option VmessConfig
deriving DecidableEq, Repr

/-- Model of `detect_protocol` in `src/node_parser.rs`: trim, then Vmess
iff the line starts with `vmess://` or its lowercasing contains
`vmess`. -/
def detect_protocol (line : Bytes) : Protocol :=
  let trimmed := rustTrim line
  if (ascii "vmess://").isPrefixOf trimmed
      || containsSeq (ascii "vmess") (asciiLower trimmed) then
    .Vmess
  else .Unidentified

/-- Model of `parse_line_to_node` in `src/node_parser.rs`. -/
def parse_line_to_node (line : Bytes) : Except String Node := do
  let protocol := detect_protocol line
  let vmess_config ← if protocol = Protocol.Vmess then parse_vmess_config line else pure none
  pure ⟨protocol, vmess_config⟩

/-! Embedding of `src/nodes/trojan.rs`. Three spots of this file are
ill-typed Rust (the remark and `sni` percent-decode fallbacks written
with `ok_or_else`, the `QueryParams`/`ServerPortQuery` literals missing
the `network`/`query` fields, and a struct passed where a string is
expected); the model follows the evident data flow there, all of which
sits behind `extract_uuid` and is unreachable (see the trojan
theorems). -/

/-- ASCII hex digit test, Rust `u8::is_ascii_hexdigit`. -/
def isHexByte (b : Nat) : Bool :=
  (48 ≤ b && b ≤ 57) || (65 ≤ b && b ≤ 70) || (97 ≤ b && b ≤ 102)

/-- Field-for-field model of `TrojanConfig` in `src/nodes/trojan.rs`. -/
structure TrojanConfig where
  server : Bytes
  server_port : Nat
  password : Bytes
  remarks : Option Bytes
  allow_insecure : Bool
  sni : Option Bytes
  peer : Option Bytes
  network : Option Bytes
deriving DecidableEq, Repr

/-- Model of `QueryParams` in `src/nodes/trojan.rs` (with the `network`
field its initializer and `parse_query_params` use). -/
structure QueryParams where
  allow_insecure : Bool
  peer : Option Bytes
  sni : Option Bytes
  network : Option Bytes
deriving DecidableEq, Repr

/-- Model of `ServerPortQuery` in `src/nodes/trojan.rs`. -/
structure ServerPortQuery where
  server : Bytes
  port : Nat
  query : Bytes
deriving DecidableEq, Repr

/-- Model of `extract_uuid` in `src/nodes/trojan.rs`: trim, accept only
length 32 or 36 and only hex digits or hyphens. -/
def extract_uuid (password_part : Bytes) : Option Bytes :=
  let cleaned := rustTrim password_part
  if cleaned.length ≠ 32 ∧ cleaned.length ≠ 36 then none
  else if cleaned.all (fun c => isHexByte c || c == 45) then some cleaned
  else none

/-- Model of `str::splitn(2, char)`: split at the first occurrence. -/
def splitn2First (c : Nat) (s : Bytes) : Bytes × Option Bytes :=
  match s.findIdx? (· == c) with
  | some i => (s.take i, some (s.drop (i + 1)))
  | none => (s, none)

/-- Model of `parse_query_params` in `src/nodes/trojan.rs`: tokens split
on `&`, each split once on the first `=`; `allowInsecure` compares the
value against the exact string `1`; `sni` percent-decodes with a
fall-back to the raw value; unknown keys are ignored. -/
def parse_query_params (query : Bytes) : QueryParams :=
  let init : QueryParams := ⟨false, none, none, none⟩
  if query.isEmpty then init
  else
    (splitByte 38 query).foldl (fun params param =>
      let kv := splitn2First 61 param
      let key := kv.1
      let value := kv.2
      if key = ascii "allowInsecure" then
        { params with allow_insecure := value == some (ascii "1") }
      else if key = ascii "peer" then
        match value with
        | some v => { params with peer := some v }
        | none => params
      else if key = ascii "sni" then
        match value with
        | some v =>
          let d := pctDecode v
          { params with sni := some (if validUtf8 d then d else v) }
        | none => params
      else if key = ascii "network" then
        match value with
        | some v => { params with network := some v }
        | none => params
      else params) init

/-- Model of `parse_server_port_query_with_query` in
`src/nodes/trojan.rs`. -/
def parse_server_port_query_with_query (server_port_query additional_query : Bytes)
    (remarks : Option Bytes) : Except String (Option (ServerPortQuery × Option Bytes)) := do
  let full_query :=
    if additional_query.isEmpty then server_port_query
    else server_port_query ++ [38] ++ additional_query
  let parts := splitByte 63 full_query
  if parts.isEmpty then pure none
  else do
    let server_port_part ← vecGet parts 0
    let query ← if parts.length > 1 then vecGet parts 1 else pure ([] : Bytes)
    match rfindByte 58 server_port_part with
    | some last_colon => do
      let server ← sliceTo server_port_part last_colon
      let port_str ← sliceFrom server_port_part (last_colon + 1)
      match parseU16 port_str with
      | some port => pure (some (⟨server, port, query⟩, remarks))
      | none => pure none
    | none => pure none

/-- Model of `parse_server_query_remarks` in `src/nodes/trojan.rs`:
separate the query on `?`, the remarks on `#` (percent-decoded with a
fall-back to the raw bytes), then split server from port. -/
def parse_server_query_remarks (server_query_remarks : Bytes) :
    Except String (Option (ServerPortQuery × Option Bytes)) := do
  let parts := splitByte 63 server_query_remarks
  if parts.isEmpty then pure none
  else do
    let server_port_part ← vecGet parts 0
    let query ← if parts.length > 1 then vecGet parts 1 else pure ([] : Bytes)
    match server_port_part.findIdx? (· == 35) with
    | some hash_pos => do
      let remarks_part ← sliceFrom server_port_part (hash_pos + 1)
      let spp ← sliceTo server_port_part hash_pos
      let d := pctDecode remarks_part
      let decoded_remarks := if validUtf8 d then d else remarks_part
      parse_server_port_query_with_query spp query (some decoded_remarks)
    | none => parse_server_port_query_with_query server_port_part query none

/-- Model of `parse_server_port_query` in `src/nodes/trojan.rs`. -/
def parse_server_port_query (server_port_part : Bytes) :
    Except String (Option (ServerPortQuery × Bytes)) := do
  match rfindByte 58 server_port_part with
  | some last_colon => do
    let server ← sliceTo server_port_part last_colon
    let port_str ← sliceFrom server_port_part (last_colon + 1)
    match parseU16 port_str with
    | some port => pure (some (⟨server, port, []⟩, []))
    | none => pure none
  | none => pure none

/-- Model of `parse_trojan_config` in `src/nodes/trojan.rs`. The source
strips only eight bytes of the nine-byte scheme `trojan://`, so
`url_part` always begins with the second slash; the credential part
passed to `extract_uuid` therefore starts with `/`. After
`parse_server_query_remarks` the source feeds its result through
`parse_server_port_query` in a way that does not type-check in Rust;
the model uses the evident data flow (the fields of the already-parsed
`ServerPortQuery`), which no claim reaches. -/
def parse_trojan_config (trojan_url : Bytes) : Except String (Option TrojanConfig) := do
  if ¬ (ascii "trojan://").isPrefixOf trojan_url then pure none
  else do
    let url_part ← sliceFrom trojan_url 8
    match url_part.findIdx? (· == 64) with
    | none => pure none
    | some at_pos => do
      let password_part ← sliceTo url_part at_pos
      let server_part ← sliceFrom url_part (at_pos + 1)
      match extract_uuid password_part with
      | none => pure none
      | some password => do
        match ← parse_server_query_remarks server_part with
        | none => pure none
        | some (server_port_query, remarks) => do
          let params := parse_query_params server_port_query.query
          pure (some ⟨server_port_query.server, server_port_query.port, password,
            remarks, params.allow_insecure, params.sni, params.peer, params.network⟩)

/-- Model of `is_valid_uuid` in `src/nodes/trojan.rs`. -/
def is_valid_uuid (uuid : Bytes) : Bool :=
  (uuid.length == 32 || uuid.length == 36)
    && uuid.all (fun c => isHexByte c || c == 45)

/-- Model of `validate_trojan_config` in `src/nodes/trojan.rs`. -/
def validate_trojan_config (config : TrojanConfig) : Bool :=
  ¬ config.server.isEmpty && config.server_port > 0 && config.server_port ≤ 65535
    && config.password.length ≥ 32 && is_valid_uuid config.password

/-! Embedding of `src/yaml_utils.rs` and the aggregation steps of
`src/main.rs`. These work on decoded strings, modelled as `List Char`;
opaque pass-through YAML values are modelled as strings, which the
aggregation logic never inspects. -/

/-- Model of `Proxy` in `src/yaml_utils.rs`: the display name plus the
flattened pass-through properties. -/
structure Proxy where
  name : RStr
  properties : List (RStr × RStr)
deriving DecidableEq, Repr

/-- Model of `ProxyGroup` in `src/yaml_utils.rs`. -/
structure ProxyGroup where
  name : RStr
  type : RStr
  proxies : List RStr
  timeout : Option Nat
  interval : Option Nat
deriving DecidableEq, Repr

/-- Model of `Config` in `src/yaml_utils.rs`. -/
structure Config where
  properties : List (RStr × RStr)
  proxies : List Proxy
  proxy_groups : List ProxyGroup
  rules : List RStr
deriving DecidableEq, Repr

/-- Model of `ProxyGroup::from_country`: a url-test group with no
members, no timeout, and a 3600-second interval. -/
def ProxyGroup.from_country (country : RStr) : ProxyGroup :=
  ⟨country, rstr "url-test", [], none, some (60 * 60)⟩

/-- Model of `merge_proxies` in `src/yaml_utils.rs`: concatenation of
the per-source proxy lists, in source order. -/
def merge_proxies (configs : List Config) : List Proxy :=
  (configs.map Config.proxies).flatten

/-- Model of `merge_rules` in `src/yaml_utils.rs`. -/
def merge_rules (configs : List Config) : List RStr :=
  (configs.map Config.rules).flatten

/-- The eight mutable region groups of `create_groups_by_country`. -/
structure CountryBuckets where
  de : ProxyGroup
  tw : ProxyGroup
  hk : ProxyGroup
  jp : ProxyGroup
  sg : ProxyGroup
  us : ProxyGroup
  uk : ProxyGroup
  others : ProxyGroup
deriving DecidableEq, Repr

/-- `Vec::push` onto a group's member list. -/
def pushName (g : ProxyGroup) (n : RStr) : ProxyGroup :=
  { g with proxies := g.proxies ++ [n] }

/-- One iteration of the classification loop of
`create_groups_by_country`: first matching keyword rule wins, the
expiry/traffic keywords drop the name, everything else lands in the
`Other` bucket. -/
def bucketStep (acc : CountryBuckets) (p : Proxy) : CountryBuckets :=
  if containsSeq (rstr "德国") p.name || containsSeq (rstr "DE") p.name then
    { acc with de := pushName acc.de p.name }
  else if containsSeq (rstr "台湾") p.name || containsSeq (rstr "TW") p.name then
    { acc with tw := pushName acc.tw p.name }
  else if containsSeq (rstr "香港") p.name || containsSeq (rstr "HK") p.name then
    { acc with hk := pushName acc.hk p.name }
  else if containsSeq (rstr "日本") p.name || containsSeq (rstr "JP") p.name then
    { acc with jp := pushName acc.jp p.name }
  else if containsSeq (rstr "新加坡") p.name || containsSeq (rstr "SG") p.name then
    { acc with sg := pushName acc.sg p.name }
  else if containsSeq (rstr "美国") p.name || containsSeq (rstr "US") p.name then
    { acc with us := pushName acc.us p.name }
  else if containsSeq (rstr "英国") p.name || containsSeq (rstr "UK") p.name then
    { acc with uk := pushName acc.uk p.name }
  else if containsSeq (rstr "剩余") p.name || containsSeq (rstr "到期") p.name then
    acc
  else
    { acc with others := pushName acc.others p.name }

/-- The region-name list used by the manual-selection groups. -/
def selectNames : List RStr :=
  [rstr "Germany", rstr "Taiwan", rstr "Hong Kong", rstr "Japan",
   rstr "Singapore", rstr "US", rstr "UK", rstr "Other"]

/-- Model of `create_groups_by_country` in `src/yaml_utils.rs`: bucket
every proxy name, then emit the four manual-selection groups followed by
the eight region groups, unconditionally. -/
def create_groups_by_country (proxies : List Proxy) : List ProxyGroup :=
  let bs := proxies.foldl bucketStep
    ⟨ProxyGroup.from_country (rstr "Germany"), ProxyGroup.from_country (rstr "Taiwan"),
     ProxyGroup.from_country (rstr "Hong Kong"), ProxyGroup.from_country (rstr "Japan"),
     ProxyGroup.from_country (rstr "Singapore"), ProxyGroup.from_country (rstr "US"),
     ProxyGroup.from_country (rstr "UK"), ProxyGroup.from_country (rstr "Other")⟩
  let select : ProxyGroup := ⟨rstr "手动选择", rstr "select", selectNames, none, none⟩
  let ms : ProxyGroup := ⟨rstr "Microsoft", rstr "select", rstr "DIRECT" :: selectNames, none, none⟩
  let apple : ProxyGroup := ⟨rstr "Apple", rstr "select", rstr "DIRECT" :: selectNames, none, none⟩
  let google : ProxyGroup := ⟨rstr "Google", rstr "select", selectNames, none, none⟩
  [select, google, ms, apple, bs.de, bs.tw, bs.hk, bs.jp, bs.sg, bs.us, bs.uk, bs.others]

/-- Model of `itertools::unique_by(|proxy| proxy.name)` with its set of
already-seen keys: an element is yielded iff its name was not seen
before. -/
def uniqueByNameAux (seen : List RStr) : List Proxy → List Proxy
  | [] => []
  | p :: rest =>
    if seen.contains p.name then uniqueByNameAux seen rest
    else p :: uniqueByNameAux (p.name :: seen) rest

/-- The dedup step of `src/main.rs`: `unique_by` on the display name. -/
def unique_by_name (proxies : List Proxy) : List Proxy :=
  uniqueByNameAux [] proxies

/-- The aggregate of `src/main.rs`: concatenate the per-source batches,
then deduplicate by display name. -/
def aggregate_proxies (configs : List Config) : List Proxy :=
  unique_by_name (merge_proxies configs)

/-- Spec-side deduplication, from the words of the specification: keep
the first occurrence at its position and discard every later descriptor
with the same display name. -/
def dedup_by_name_spec : List Proxy → List Proxy
  | [] => []
  | p :: rest => p :: dedup_by_name_spec (rest.filter (fun q => ¬ (q.name = p.name)))
termination_by l => l.length
decreasing_by
  simp only [List.length_cons]
  exact Nat.lt_succ_of_le (List.length_filter_le _ _)

/-- Model of the renaming loop of `src/main.rs`: a proxy name from the
document named `vendor` becomes `name@F..L` with `F`/`L` the first/last
character of `vendor`; an empty document name makes `main` abort with an
error. -/
def rewrite_name (vendor : RStr) (name : RStr) : Except String RStr :=
  match vendor.head? with
  | none => .error "a"
  | some first =>
    match vendor.getLast? with
    | none => .error "a"
    | some last => .ok (name ++ ('@' :: first :: '.' :: '.' :: [last]))

/-- The renaming loop over one document's proxies. -/
def rewrite_proxies (vendor : RStr) (ps : List Proxy) : Except String (List Proxy) :=
  ps.mapM (fun p => do
    let n ← rewrite_name vendor p.name
    pure { p with name := n })

/-- The per-document loop of `src/main.rs`: rename every proxy of every
cached document. -/
def rename_configs (docs : List (RStr × Config)) : Except String (List Config) :=
  docs.mapM (fun vc => do
    let ps ← rewrite_proxies vc.1 vc.2.proxies
    pure { vc.2 with proxies := ps })

/-- The aggregation pipeline of `src/main.rs` on loaded documents:
rename, merge, deduplicate by name. -/
def aggregate_pipeline (docs : List (RStr × Config)) : Except String (List Proxy) := do
  let configs ← rename_configs docs
  pure (aggregate_proxies configs)

/-! Derived constructions the theorems quantify over. -/

/-- The eleven serialized fields of a `VmessConfig`, as the JSON object
entry list that parsing its serialization yields. -/
def vmessJsonFields (c : VmessConfig) : List (Bytes × Json) :=
  [(ascii "v", Json.str c.version), (ascii "ps", Json.str c.remarks),
   (ascii "add", Json.str c.address), (ascii "port", Json.str c.port),
   (ascii "id", Json.str c.user_id), (ascii "aid", Json.str c.alter_id),
   (ascii "net", Json.str c.network), (ascii "type", Json.str c.header_type),
   (ascii "host", Json.str c.host), (ascii "path", Json.str c.path),
   (ascii "tls", Json.str c.tls)]

/-- The eleven field values of a `VmessConfig` (each one a Rust `String`,
hence valid UTF-8). -/
def vmessFieldValues (c : VmessConfig) : List Bytes :=
  [c.version, c.remarks, c.address, c.port, c.user_id, c.alter_id,
   c.network, c.header_type, c.host, c.path, c.tls]

/-! Helper lemmas about the byte-string primitives. -/

theorem rfindByte_none_iff {c : Nat} {s : Bytes} : rfindByte c s = none ↔ c ∉ s := by
  induction s with
  | nil => simp [rfindByte]
  | cons b rest ih =>
    simp only [rfindByte, List.mem_cons]
    cases h : rfindByte c rest with
    | some i =>
      have hmem : c ∈ rest := by
        by_contra hc
        simp [ih.mpr hc] at h
      simp [hmem]
    | none =>
      have hni : c ∉ rest := ih.mp h
      by_cases hbc : b = c
      · subst hbc
        simp
      · have : c ≠ b := Ne.symm hbc
        simp [hbc, hni, this]

theorem rfindByte_some_lt {c : Nat} {s : Bytes} {i : Nat}
    (h : rfindByte c s = some i) : i < s.length := by
  induction s generalizing i with
  | nil => simp [rfindByte] at h
  | cons b rest ih =>
    simp only [rfindByte] at h
    cases hr : rfindByte c rest with
    | some j =>
      rw [hr] at h
      cases h
      simp only [List.length_cons]
      exact Nat.succ_lt_succ (ih hr)
    | none =>
      rw [hr] at h
      by_cases hbc : b = c
      · simp [hbc] at h
        simp [← h]
      · simp [hbc] at h

theorem rfindByte_some_drop {c : Nat} {s : Bytes} {i : Nat}
    (h : rfindByte c s = some i) : c ∉ s.drop (i + 1) := by
  induction s generalizing i with
  | nil => simp [rfindByte] at h
  | cons b rest ih =>
    simp only [rfindByte] at h
    cases hr : rfindByte c rest with
    | some j =>
      rw [hr] at h
      cases h
      simpa using ih hr
    | none =>
      rw [hr] at h
      by_cases hbc : b = c
      · simp [hbc] at h
        subst h
        simpa using rfindByte_none_iff.mp hr
      · simp [hbc] at h

theorem splitByte_head_prefix (c : Nat) (s : Bytes) :
    ∃ h t, splitByte c s = h :: t ∧ h <+: s := by
  induction s with
  | nil => exact ⟨[], [], rfl, List.nil_prefix⟩
  | cons b rest ih =>
    by_cases hbc : b = c
    · exact ⟨[], splitByte c rest, by simp [splitByte, hbc], List.nil_prefix⟩
    · obtain ⟨h, t, heq, hp⟩ := ih
      refine ⟨b :: h, t, ?_, ?_⟩
      · simp [splitByte, hbc, heq]
      · exact List.cons_prefix_cons.mpr ⟨rfl, hp⟩

theorem containsSeq_single {c : Nat} {l : Bytes} : containsSeq [c] l = true ↔ c ∈ l := by
  induction l with
  | nil => simp [containsSeq]
  | cons h t ih =>
    show (List.isPrefixOf [c] (h :: t) || containsSeq [c] t) = true ↔ c ∈ h :: t
    simp only [List.isPrefixOf, Bool.and_true, Bool.or_eq_true, beq_iff_eq,
      List.mem_cons, ih]

theorem findIdx_beq_none {c : Nat} {l : Bytes} (h : c ∉ l) : l.findIdx? (· == c) = none := by
  induction l with
  | nil => simp
  | cons b rest ih =>
    simp only [List.mem_cons, not_or] at h
    have hb : (b == c) = false := by
      simp
      exact fun hx => h.1 hx.symm
    simp [List.findIdx?_cons, hb, ih h.2]

/-! The Shadowsocks decoder never yields a descriptor: every remainder
containing `@` goes to the legacy parser, whose final segment (the text
after the last colon of the whole remainder) cannot contain a colon, so
the server/port split fails; a remainder without `@` goes to the SIP002
parser, which starts by looking for `@`. -/

theorem parse_spr_no_colon {spr : Bytes} (h : (58 : Nat) ∉ spr) :
    parse_server_port_remarks spr = .ok none := by
  obtain ⟨hd, t, heq, hp⟩ := splitByte_head_prefix 35 spr
  have hcol : (58 : Nat) ∉ hd := fun hm => h (hp.subset hm)
  have hrf : rfindByte 58 hd = none := rfindByte_none_iff.mpr hcol
  cases t with
  | nil =>
    simp [parse_server_port_remarks, heq, vecGet, hrf, Bind.bind, Except.bind, pure, Except.pure]
  | cons t1 t2 =>
    simp [parse_server_port_remarks, heq, vecGet, hrf, Bind.bind, Except.bind, pure, Except.pure]

theorem parse_legacy_ss_format_none (u : Bytes) : parse_legacy_ss_format u = .ok none := by
  cases hr : rfindByte 58 u with
  | none =>
    simp [parse_legacy_ss_format, rsplitn2, hr, Bind.bind, Except.bind, pure, Except.pure]
  | some i =>
    have hnc : (58 : Nat) ∉ u.drop (i + 1) := rfindByte_some_drop hr
    have h1 := parse_spr_no_colon hnc
    by_cases h2 : (splitByte 58 (u.take i)).length = 2
    · simp [parse_legacy_ss_format, rsplitn2, hr, vecGet, h2, h1,
        Bind.bind, Except.bind, pure, Except.pure]
    · simp [parse_legacy_ss_format, rsplitn2, hr, vecGet, h2,
        Bind.bind, Except.bind, pure, Except.pure]

theorem parse_sip002_ss_format_none {u : Bytes} (h : (64 : Nat) ∉ u) :
    parse_sip002_ss_format u = .ok none := by
  simp [parse_sip002_ss_format, findIdx_beq_none h, Bind.bind, Except.bind, pure, Except.pure]

theorem parse_ss_config_none (s : Bytes) : parse_ss_config s = .ok none := by
  by_cases hp : (ascii "ss://").isPrefixOf s
  · have hlen : 5 ≤ s.length := by
      have h5 : (ascii "ss://").length = 5 := rfl
      have := (List.isPrefixOf_iff_prefix.mp hp).length_le
      omega
    by_cases hc : containsSeq [64] (s.drop 5) = true
    · simp [parse_ss_config, hp, sliceFrom, hlen, hc, parse_legacy_ss_format_none,
        Bind.bind, Except.bind, pure, Except.pure]
    · have h64 : (64 : Nat) ∉ s.drop 5 := fun hm => hc (containsSeq_single.mpr hm)
      simp [parse_ss_config, hp, sliceFrom, hlen, hc, parse_sip002_ss_format_none h64,
        Bind.bind, Except.bind, pure, Except.pure]
  · simp [parse_ss_config, hp, pure, Except.pure]

/-- C1: the specification (and the repository's own
`test_parse_sip002_format`) says this SIP002 link decodes to server
`hk11.cxk.lol`, port 25451, method `aes-128-gcm`; in the code the
dispatch sends every `@`-containing remainder to the legacy parser,
which always fails, so `parse_ss_config` returns no descriptor at this
input (and at every other). -/
theorem c1_sip002_example_yields_no_descriptor :
    parse_ss_config (ascii "ss://YWVzLTEyOC1nY206OTQzYjI4MDEtYWE2YS00YTIwLWI2OTAtNGUzNzdkY2ZjOTJl@hk11.cxk.lol:25451")
      = .ok none :=
  parse_ss_config_none _

/-- C2: the specification (and the repository's own
`test_parse_legacy_format`) says this legacy link decodes to
`example.com:8388` with remarks `MyServer`; in the code the legacy
parser splits at the last colon of the whole remainder, hands `8388`
followed by the remarks to the server/port splitter, finds no colon
there, and fails, so `parse_ss_config` returns no descriptor. -/
theorem c2_legacy_example_yields_no_descriptor :
    parse_ss_config (ascii "ss://aes-256-gcm:password@example.com:8388#MyServer") = .ok none :=
  parse_ss_config_none _

/-- C8: a SIP002 userinfo whose plaintext splits on `:` into exactly
five fields makes `parse_userinfo` read `parts[5]` of a five-element
vector — an out-of-bounds panic — contradicting the claim that the
extraction never accesses a field index out of bounds. -/
theorem c8_userinfo_five_fields_out_of_bounds {u : Bytes}
    (h : (splitByte 58 u).length = 5) :
    parse_userinfo u = .error "index out of bounds" := by
  have h5 : ∃ p0 p1 p2 p3 p4, splitByte 58 u = [p0, p1, p2, p3, p4] := by
    rcases hu : splitByte 58 u with _ | ⟨p0, _ | ⟨p1, _ | ⟨p2, _ | ⟨p3, _ | ⟨p4, _ | ⟨p5, t⟩⟩⟩⟩⟩⟩ <;>
      rw [hu] at h <;> simp at h
    exact ⟨p0, p1, p2, p3, p4, rfl⟩
  obtain ⟨p0, p1, p2, p3, p4, hu⟩ := h5
  simp [parse_userinfo, hu, vecGet, Bind.bind, Except.bind, pure, Except.pure]

/-- C8 witness: the five-field userinfo `a:b:c:d:e` panics. -/
theorem c8_userinfo_five_fields_out_of_bounds_witness :
    (splitByte 58 (ascii "a:b:c:d:e")).length = 5 ∧
      parse_userinfo (ascii "a:b:c:d:e") = .error "index out of bounds" :=
  ⟨by decide, c8_userinfo_five_fields_out_of_bounds (by decide)⟩

/-! The Trojan decoder never yields a descriptor: `trojan://` is nine
bytes but the source strips eight, so the credential handed to
`extract_uuid` starts with `/`, which fails both the length check and
the hex-or-hyphen check. -/

theorem findIdx_some_lt {p : Nat → Bool} {l : List Nat} {i : Nat}
    (h : l.findIdx? p = some i) : i < l.length :=
  (List.findIdx?_eq_some_iff_findIdx_eq.mp h).1

theorem dropWhile_append_singleton {b : Nat} (hb : isWsByte b = false) (l : Bytes) :
    ∃ y, (l ++ [b]).dropWhile isWsByte = y ++ [b] := by
  induction l with
  | nil => exact ⟨[], by simp [List.dropWhile, hb]⟩
  | cons a l ih =>
    by_cases ha : isWsByte a
    · simpa [List.dropWhile_cons, ha] using ih
    · exact ⟨a :: l, by simp [List.dropWhile_cons, ha]⟩

theorem rustTrim_cons_head {b : Nat} (hb : isWsByte b = false) (x : Bytes) :
    ∃ y, rustTrim (b :: x) = b :: y := by
  unfold rustTrim
  have h1 : (b :: x).dropWhile isWsByte = b :: x := by simp [List.dropWhile_cons, hb]
  rw [h1]
  have h2 : (b :: x).reverse = x.reverse ++ [b] := by simp
  rw [h2]
  obtain ⟨y, hy⟩ := dropWhile_append_singleton hb x.reverse
  rw [hy]
  exact ⟨y.reverse, by simp⟩

theorem extract_uuid_lead_slash (x : Bytes) : extract_uuid (47 :: x) = none := by
  obtain ⟨y, hy⟩ := rustTrim_cons_head (b := 47) (by decide) x
  unfold extract_uuid
  rw [hy]
  have hf47 : (isHexByte 47 || ((47 : Nat) == 45)) = false := by decide
  have hall : ((47 :: y).all (fun c => isHexByte c || c == 45)) = false := by
    rw [List.all_cons, hf47]
    simp
  by_cases hl : (47 :: y).length ≠ 32 ∧ (47 :: y).length ≠ 36
  · rw [if_pos hl]
  · rw [if_neg hl, hall]
    simp

theorem sliceFrom_ok {s : Bytes} {i : Nat} (h : i ≤ s.length) :
    sliceFrom s i = .ok (s.drop i) := by
  simp [sliceFrom, h]

theorem sliceTo_ok {s : Bytes} {i : Nat} (h : i ≤ s.length) :
    sliceTo s i = .ok (s.take i) := by
  simp [sliceTo, h]

theorem findIdx_cons_map (p : Nat → Bool) (b : Nat) (t : List Nat) :
    (b :: t).findIdx? p = if p b then some 0 else (t.findIdx? p).map (· + 1) := by
  simp [List.findIdx?_cons]

theorem parse_trojan_config_none (s : Bytes) : parse_trojan_config s = .ok none := by
  by_cases hp : (ascii "trojan://").isPrefixOf s
  · obtain ⟨t, ht⟩ := List.isPrefixOf_iff_prefix.mp hp
    subst ht
    have h8 : 8 ≤ (ascii "trojan://" ++ t).length := by
      have h9 : (ascii "trojan://").length = 9 := rfl
      simp only [List.length_append, h9]
      omega
    have hdrop : (ascii "trojan://" ++ t).drop 8 = 47 :: t := rfl
    have h47 : ((47 : Nat) == 64) = false := by decide
    cases hj : t.findIdx? (fun x => x == 64) with
    | none =>
      have hfull : (47 :: t).findIdx? (fun x => x == 64) = none := by
        rw [findIdx_cons_map]
        simp [h47, hj]
      simp [parse_trojan_config, hp, sliceFrom_ok h8, hdrop, hfull,
        Bind.bind, Except.bind, pure, Except.pure]
    | some j =>
      have hfull : (47 :: t).findIdx? (fun x => x == 64) = some (j + 1) := by
        rw [findIdx_cons_map]
        simp [h47, hj]
      have hjlt : j < t.length := findIdx_some_lt hj
      have htake : (47 :: t).take (j + 1) = 47 :: t.take j := by simp
      have hto : j + 1 ≤ (47 :: t).length := by
        simp only [List.length_cons]
        omega
      have hfrom : j + 1 + 1 ≤ (47 :: t).length := by
        simp only [List.length_cons]
        omega
      simp [parse_trojan_config, hp, sliceFrom_ok h8, hdrop, hfull, sliceTo_ok hto,
        sliceFrom_ok hfrom, htake, extract_uuid_lead_slash,
        Bind.bind, Except.bind, pure, Except.pure]
  · simp [parse_trojan_config, hp, pure, Except.pure]

/-- C3: the specification (and the repository's own
`test_parse_trojan_config`) says this Trojan link decodes to a
descriptor with `allow_insecure = true`, peer and sni `cdn.x.com`,
server `host`, port 12068 and the 36-character UUID password; the code
strips only eight of the nine bytes of `trojan://`, so the credential it
validates starts with `/` and `extract_uuid` rejects it — the decoder
returns no descriptor at this input (and at every other). -/
theorem c3_trojan_example_yields_no_descriptor :
    parse_trojan_config (ascii "trojan://f9ad69aa-bb58-48bb-93d7-47a8e93651d4@host:12068?allowInsecure=1&peer=cdn.x.com&sni=cdn.x.com")
        = .ok none ∧
      ∀ s, parse_trojan_config s = .ok none :=
  ⟨parse_trojan_config_none _, parse_trojan_config_none⟩

/-! Totality of the public decoding entry points. -/

theorem parse_vmess_config_isOk (s : Bytes) : ∃ r, parse_vmess_config s = .ok r := by
  by_cases hp : (ascii "vmess://").isPrefixOf s
  · have h8 : 8 ≤ s.length := by
      have h : (ascii "vmess://").length = 8 := rfl
      have := (List.isPrefixOf_iff_prefix.mp hp).length_le
      omega
    cases hd : b64decode stdInv (s.drop 8) with
    | some d =>
      by_cases hv : validUtf8 d = true
      · exact ⟨vmess_from_json d, by
          simp [parse_vmess_config, hp, sliceFrom_ok h8, hd, hv,
            Bind.bind, Except.bind, pure, Except.pure]⟩
      · exact ⟨none, by
          simp [parse_vmess_config, hp, sliceFrom_ok h8, hd, hv,
            Bind.bind, Except.bind, pure, Except.pure]⟩
    | none =>
      cases hd2 : b64decode urlInv (s.drop 8) with
      | some d =>
        by_cases hv : validUtf8 d = true
        · exact ⟨vmess_from_json d, by
            simp [parse_vmess_config, hp, sliceFrom_ok h8, hd, hd2, hv,
              Bind.bind, Except.bind, pure, Except.pure]⟩
        · exact ⟨none, by
            simp [parse_vmess_config, hp, sliceFrom_ok h8, hd, hd2, hv,
              Bind.bind, Except.bind, pure, Except.pure]⟩
      | none =>
        exact ⟨none, by
          simp [parse_vmess_config, hp, sliceFrom_ok h8, hd, hd2,
            Bind.bind, Except.bind, pure, Except.pure]⟩
  · exact ⟨none, by simp [parse_vmess_config, hp, pure, Except.pure]⟩

theorem parse_line_to_node_isOk (s : Bytes) : ∃ n, parse_line_to_node s = .ok n := by
  by_cases hd : detect_protocol s = Protocol.Vmess
  · obtain ⟨r, hr⟩ := parse_vmess_config_isOk s
    exact ⟨⟨detect_protocol s, r⟩, by
      simp [parse_line_to_node, hd, hr, Bind.bind, Except.bind, pure, Except.pure]⟩
  · exact ⟨⟨detect_protocol s, none⟩, by
      simp [parse_line_to_node, hd, Bind.bind, Except.bind, pure, Except.pure]⟩

/-- C4: classification and the public decoder entry points are total on
every byte string: `detect_protocol` always yields one of the two tags,
and `parse_line_to_node`, `parse_vmess_config` and `parse_ss_config`
always return an ok result (in this embedding, an `.error` value is a
Rust panic, so an ok result at every input means no reachable panic and
no hard failure surfaced to the caller). -/
theorem c4_decoders_total (s : Bytes) :
    (detect_protocol s = Protocol.Vmess ∨ detect_protocol s = Protocol.Unidentified) ∧
      (∃ n, parse_line_to_node s = .ok n) ∧
      (∃ r, parse_vmess_config s = .ok r) ∧
      parse_ss_config s = .ok none := by
  refine ⟨?_, parse_line_to_node_isOk s, parse_vmess_config_isOk s, parse_ss_config_none s⟩
  cases h : detect_protocol s
  · exact Or.inl rfl
  · exact Or.inr rfl

/-! The aggregate: `unique_by` on display names is exactly the
spec-side first-occurrence deduplication. -/

theorem uniqueByNameAux_eq (l : List Proxy) :
    ∀ seen, uniqueByNameAux seen l =
      dedup_by_name_spec (l.filter (fun p => !(seen.contains p.name))) := by
  induction l with
  | nil =>
    intro seen
    simp [uniqueByNameAux, dedup_by_name_spec]
  | cons p rest ih =>
    intro seen
    by_cases h : seen.contains p.name
    · rw [uniqueByNameAux, List.filter_cons]
      simp only [h, if_true, Bool.not_true, Bool.false_eq_true, if_false]
      exact ih seen
    · have hb : seen.contains p.name = false := by
        simpa using h
      rw [uniqueByNameAux, List.filter_cons]
      simp only [hb, Bool.false_eq_true, if_false, Bool.not_false, if_true]
      rw [dedup_by_name_spec]
      rw [ih (p.name :: seen)]
      congr 1
      rw [List.filter_filter]
      congr 1
      apply List.filter_congr
      intro a _
      by_cases h1 : a.name = p.name
      · simp [h1, List.contains_cons]
      · by_cases h2 : seen.contains a.name
        · simp [h1, h2, List.contains_cons]
        · have h2b : seen.contains a.name = false := by simpa using h2
          simp [h1, h2b, List.contains_cons]

/-- C6: the aggregate equals the source-order concatenation of the
batches deduplicated by exact display-name equality keeping the first
occurrence in place (the spec-side recursion discards every later
same-named descriptor); in particular, of two same-named descriptors in
different source batches exactly the earlier one remains. -/
theorem c6_aggregate_is_first_occurrence_dedup :
    (∀ configs : List Config,
       aggregate_proxies configs = dedup_by_name_spec (merge_proxies configs)) ∧
    (∀ (p q : Proxy) (c1 c2 : Config), c1.proxies = [p] → c2.proxies = [q] →
       p.name = q.name → aggregate_proxies [c1, c2] = [p]) := by
  constructor
  · intro configs
    have h := uniqueByNameAux_eq (merge_proxies configs) []
    simpa [aggregate_proxies, unique_by_name] using h
  · intro p q c1 c2 h1 h2 hname
    simp [aggregate_proxies, merge_proxies, h1, h2, unique_by_name, uniqueByNameAux, hname]

/-- C6 witness: two same-named proxies in two singleton batches collapse
to the first one. -/
theorem c6_aggregate_is_first_occurrence_dedup_witness :
    aggregate_proxies
        [⟨[], [⟨rstr "node", []⟩], [], []⟩,
         ⟨[], [⟨rstr "node", [(rstr "k", rstr "v")]⟩], [], []⟩]
      = [⟨rstr "node", []⟩] :=
  c6_aggregate_is_first_occurrence_dedup.2 _ _ _ _ rfl rfl rfl

/-! The group builder emits all eight region groups whether or not
their buckets are empty: the classification fold never touches a
group's name or type. -/

theorem bucketStep_keeps (acc : CountryBuckets) (p : Proxy) :
    (bucketStep acc p).de.name = acc.de.name ∧ (bucketStep acc p).de.type = acc.de.type ∧
    (bucketStep acc p).tw.name = acc.tw.name ∧ (bucketStep acc p).tw.type = acc.tw.type ∧
    (bucketStep acc p).hk.name = acc.hk.name ∧ (bucketStep acc p).hk.type = acc.hk.type ∧
    (bucketStep acc p).jp.name = acc.jp.name ∧ (bucketStep acc p).jp.type = acc.jp.type ∧
    (bucketStep acc p).sg.name = acc.sg.name ∧ (bucketStep acc p).sg.type = acc.sg.type ∧
    (bucketStep acc p).us.name = acc.us.name ∧ (bucketStep acc p).us.type = acc.us.type ∧
    (bucketStep acc p).uk.name = acc.uk.name ∧ (bucketStep acc p).uk.type = acc.uk.type ∧
    (bucketStep acc p).others.name = acc.others.name ∧
    (bucketStep acc p).others.type = acc.others.type := by
  unfold bucketStep pushName
  repeat' split
  all_goals simp

theorem bucketFold_keeps (ps : List Proxy) : ∀ acc : CountryBuckets,
    (ps.foldl bucketStep acc).de.name = acc.de.name ∧
    (ps.foldl bucketStep acc).de.type = acc.de.type ∧
    (ps.foldl bucketStep acc).tw.name = acc.tw.name ∧
    (ps.foldl bucketStep acc).tw.type = acc.tw.type ∧
    (ps.foldl bucketStep acc).hk.name = acc.hk.name ∧
    (ps.foldl bucketStep acc).hk.type = acc.hk.type ∧
    (ps.foldl bucketStep acc).jp.name = acc.jp.name ∧
    (ps.foldl bucketStep acc).jp.type = acc.jp.type ∧
    (ps.foldl bucketStep acc).sg.name = acc.sg.name ∧
    (ps.foldl bucketStep acc).sg.type = acc.sg.type ∧
    (ps.foldl bucketStep acc).us.name = acc.us.name ∧
    (ps.foldl bucketStep acc).us.type = acc.us.type ∧
    (ps.foldl bucketStep acc).uk.name = acc.uk.name ∧
    (ps.foldl bucketStep acc).uk.type = acc.uk.type ∧
    (ps.foldl bucketStep acc).others.name = acc.others.name ∧
    (ps.foldl bucketStep acc).others.type = acc.others.type := by
  induction ps with
  | nil => intro acc; simp
  | cons p ps ih =>
    intro acc
    rw [List.foldl_cons]
    obtain ⟨a1, a2, a3, a4, a5, a6, a7, a8, a9, a10, a11, a12, a13, a14, a15, a16⟩ :=
      ih (bucketStep acc p)
    obtain ⟨b1, b2, b3, b4, b5, b6, b7, b8, b9, b10, b11, b12, b13, b14, b15, b16⟩ :=
      bucketStep_keeps acc p
    exact ⟨a1.trans b1, a2.trans b2, a3.trans b3, a4.trans b4, a5.trans b5, a6.trans b6,
      a7.trans b7, a8.trans b8, a9.trans b9, a10.trans b10, a11.trans b11, a12.trans b12,
      a13.trans b13, a14.trans b14, a15.trans b15, a16.trans b16⟩

/-- C7 (amended): the group builder emits a url-test region group for
every one of the eight region buckets unconditionally — empty buckets
included — always in the same positions and always preceded by the four
manual-selection groups; the name/type profile of its output does not
depend on the input at all. -/
theorem c7_all_region_groups_always_emitted (proxies : List Proxy) :
    (create_groups_by_country proxies).map (fun g => (g.name, g.type)) =
      [(rstr "手动选择", rstr "select"), (rstr "Google", rstr "select"),
       (rstr "Microsoft", rstr "select"), (rstr "Apple", rstr "select"),
       (rstr "Germany", rstr "url-test"), (rstr "Taiwan", rstr "url-test"),
       (rstr "Hong Kong", rstr "url-test"), (rstr "Japan", rstr "url-test"),
       (rstr "Singapore", rstr "url-test"), (rstr "US", rstr "url-test"),
       (rstr "UK", rstr "url-test"), (rstr "Other", rstr "url-test")] := by
  obtain ⟨a1, a2, a3, a4, a5, a6, a7, a8, a9, a10, a11, a12, a13, a14, a15, a16⟩ :=
    bucketFold_keeps proxies
      ⟨ProxyGroup.from_country (rstr "Germany"), ProxyGroup.from_country (rstr "Taiwan"),
       ProxyGroup.from_country (rstr "Hong Kong"), ProxyGroup.from_country (rstr "Japan"),
       ProxyGroup.from_country (rstr "Singapore"), ProxyGroup.from_country (rstr "US"),
       ProxyGroup.from_country (rstr "UK"), ProxyGroup.from_country (rstr "Other")⟩
  simp only [ProxyGroup.from_country] at a1 a2 a3 a4 a5 a6 a7 a8 a9 a10 a11 a12 a13 a14 a15 a16
  simp [create_groups_by_country, ProxyGroup.from_country, a1, a2, a3, a4, a5, a6, a7, a8,
    a9, a10, a11, a12, a13, a14, a15, a16]

/-- C7 counterexample: on the empty descriptor list the output contains
a url-test region group with an empty member list, contradicting the
claim that such a group is emitted only for non-empty buckets. -/
theorem c7_empty_region_group_emitted :
    ∃ g, g ∈ create_groups_by_country [] ∧ g.type = rstr "url-test" ∧ g.proxies = [] := by
  refine ⟨ProxyGroup.from_country (rstr "Germany"), ?_, rfl, rfl⟩
  simp [create_groups_by_country, ProxyGroup.from_country]

/-! The per-document rename of `main`. -/

theorem rewrite_name_eq {vendor : RStr} {f l : Char} (name : RStr)
    (hf : vendor.head? = some f) (hl : vendor.getLast? = some l) :
    rewrite_name vendor name = .ok (name ++ ('@' :: f :: '.' :: '.' :: [l])) := by
  simp [rewrite_name, hf, hl]

/-- C9: every proxy name from the cached document named `vendor` is
rewritten to `name@F..L` with `F`/`L` the first/last character of the
document name, and two same-named proxies from documents whose names
differ in first or last character get distinct display names, so the
deduplication keeps both. -/
theorem c9_rename_disambiguates_and_both_retained :
    (∀ (vendor name : RStr) (f l : Char), vendor.head? = some f → vendor.getLast? = some l →
        rewrite_name vendor name = .ok (name ++ ('@' :: f :: '.' :: '.' :: [l]))) ∧
    (∀ (v1 v2 n : RStr) (f1 l1 f2 l2 : Char) (props1 props2 : List (RStr × RStr))
        (c1 c2 : Config),
        v1.head? = some f1 → v1.getLast? = some l1 →
        v2.head? = some f2 → v2.getLast? = some l2 →
        f1 ≠ f2 ∨ l1 ≠ l2 →
        c1.proxies = [⟨n, props1⟩] → c2.proxies = [⟨n, props2⟩] →
        aggregate_pipeline [(v1, c1), (v2, c2)] =
          .ok [⟨n ++ ('@' :: f1 :: '.' :: '.' :: [l1]), props1⟩,
               ⟨n ++ ('@' :: f2 :: '.' :: '.' :: [l2]), props2⟩]) := by
  constructor
  · intro vendor name f l hf hl
    exact rewrite_name_eq name hf hl
  · intro v1 v2 n f1 l1 f2 l2 props1 props2 c1 c2 hf1 hl1 hf2 hl2 hdiff h1 h2
    have hne : (n ++ ('@' :: f2 :: '.' :: '.' :: [l2])) ≠ (n ++ ('@' :: f1 :: '.' :: '.' :: [l1])) := by
      intro he
      simp only [List.append_cancel_left_eq, List.cons.injEq, and_true] at he
      rcases hdiff with hd | hd
      · exact hd he.2.1.symm
      · exact hd he.2.2.2.2.symm
    have hb : ((n ++ ('@' :: f2 :: '.' :: '.' :: [l2])) == (n ++ ('@' :: f1 :: '.' :: '.' :: [l1]))) = false := by
      simpa using hne
    simp [aggregate_pipeline, rename_configs, rewrite_proxies, List.mapM, List.mapM.loop,
      h1, h2, rewrite_name_eq n hf1 hl1, rewrite_name_eq n hf2 hl2,
      aggregate_proxies, merge_proxies, unique_by_name, uniqueByNameAux, hb,
      Bind.bind, Except.bind, pure, Except.pure]
    intro hf
    intro hl
    rcases hdiff with hd | hd
    · exact hd hf.symm
    · exact hd hl.symm

/-- C9 witness: documents `ab` and `cb` both carrying a proxy named
`node` produce the two distinct names `node@a..b` and `node@c..b`, and
both survive deduplication. -/
theorem c9_rename_disambiguates_and_both_retained_witness :
    aggregate_pipeline
        [(rstr "ab", ⟨[], [⟨rstr "node", []⟩], [], []⟩),
         (rstr "cb", ⟨[], [⟨rstr "node", []⟩], [], []⟩)] =
      .ok [⟨rstr "node" ++ ('@' :: 'a' :: '.' :: '.' :: ['b']), []⟩,
           ⟨rstr "node" ++ ('@' :: 'c' :: '.' :: '.' :: ['b']), []⟩] :=
  c9_rename_disambiguates_and_both_retained.2 _ _ _ _ _ _ _ _ _ _ _
    rfl rfl rfl rfl (Or.inl (by decide)) rfl rfl

/-! UTF-8 validity: group decomposition lemmas. -/

theorem utf8Rest1_len {c : Nat → Bool} {rest r : Bytes} (h : utf8Rest1 c rest = some r) :
    r.length < rest.length := by
  rcases rest with _ | ⟨c1, r'⟩
  · simp [utf8Rest1] at h
  · simp only [utf8Rest1] at h
    split_ifs at h
    cases h
    simp

theorem utf8Rest2_len {c : Nat → Bool} {rest r : Bytes} (h : utf8Rest2 c rest = some r) :
    r.length < rest.length := by
  rcases rest with _ | ⟨c1, _ | ⟨c2, r'⟩⟩ <;> simp only [utf8Rest2] at h
  · exact absurd h (by simp)
  · exact absurd h (by simp)
  · split_ifs at h
    cases h
    simp
    omega

theorem utf8Rest3_len {c : Nat → Bool} {rest r : Bytes} (h : utf8Rest3 c rest = some r) :
    r.length < rest.length := by
  rcases rest with _ | ⟨c1, _ | ⟨c2, _ | ⟨c3, r'⟩⟩⟩ <;> simp only [utf8Rest3] at h
  · exact absurd h (by simp)
  · exact absurd h (by simp)
  · exact absurd h (by simp)
  · split_ifs at h
    cases h
    simp
    omega

theorem utf8Group?_len : ∀ {l r : Bytes}, utf8Group? l = some r → r.length < l.length := by
  intro l r h
  rcases l with _ | ⟨b, rest⟩
  · simp [utf8Group?] at h
  · simp only [utf8Group?] at h
    split_ifs at h
    · cases h
      simp
    · have := utf8Rest1_len h
      simp only [List.length_cons]
      omega
    · have := utf8Rest2_len h
      simp only [List.length_cons]
      omega
    · have := utf8Rest2_len h
      simp only [List.length_cons]
      omega
    · have := utf8Rest2_len h
      simp only [List.length_cons]
      omega
    · have := utf8Rest2_len h
      simp only [List.length_cons]
      omega
    · have := utf8Rest3_len h
      simp only [List.length_cons]
      omega
    · have := utf8Rest3_len h
      simp only [List.length_cons]
      omega
    · have := utf8Rest3_len h
      simp only [List.length_cons]
      omega
    all_goals simp at h

theorem validUtf8Fuel_irrel : ∀ (f1 f2 : Nat) (l : Bytes), l.length ≤ f1 → l.length ≤ f2 →
    validUtf8Fuel f1 l = validUtf8Fuel f2 l := by
  intro f1
  induction f1 with
  | zero =>
    intro f2 l h1 _
    rcases l with _ | ⟨b, rest⟩
    · simp [validUtf8Fuel]
    · simp at h1
  | succ g ih =>
    intro f2 l h1 h2
    rcases l with _ | ⟨b, rest⟩
    · simp [validUtf8Fuel]
    · rcases f2 with _ | g2
      · simp at h2
      · simp only [validUtf8Fuel]
        cases hg : utf8Group? (b :: rest) with
        | none => rfl
        | some r =>
          have hlen := utf8Group?_len hg
          simp only [List.length_cons] at h1 h2 hlen
          exact ih g2 r (by omega) (by omega)

theorem validUtf8_cons (b : Nat) (rest : Bytes) :
    validUtf8 (b :: rest) = (match utf8Group? (b :: rest) with
      | some r => validUtf8 r
      | none => false) := by
  unfold validUtf8
  simp only [List.length_cons, validUtf8Fuel]
  cases hg : utf8Group? (b :: rest) with
  | none => rfl
  | some r =>
    have hlen := utf8Group?_len hg
    simp only [List.length_cons] at hlen
    exact validUtf8Fuel_irrel _ _ r (by omega) (by omega)

theorem utf8Rest1_append {c : Nat → Bool} {rest r : Bytes} (X : Bytes)
    (h : utf8Rest1 c rest = some r) : utf8Rest1 c (rest ++ X) = some (r ++ X) := by
  rcases rest with _ | ⟨c1, r'⟩
  · simp [utf8Rest1] at h
  · simp only [utf8Rest1, List.cons_append] at h ⊢
    split_ifs at h ⊢ <;> simp_all

theorem utf8Rest2_append {c : Nat → Bool} {rest r : Bytes} (X : Bytes)
    (h : utf8Rest2 c rest = some r) : utf8Rest2 c (rest ++ X) = some (r ++ X) := by
  rcases rest with _ | ⟨c1, _ | ⟨c2, r'⟩⟩
  · simp [utf8Rest2] at h
  · simp [utf8Rest2] at h
  · simp only [utf8Rest2, List.cons_append] at h ⊢
    split_ifs at h ⊢ <;> simp_all

theorem utf8Rest3_append {c : Nat → Bool} {rest r : Bytes} (X : Bytes)
    (h : utf8Rest3 c rest = some r) : utf8Rest3 c (rest ++ X) = some (r ++ X) := by
  rcases rest with _ | ⟨c1, _ | ⟨c2, _ | ⟨c3, r'⟩⟩⟩
  · simp [utf8Rest3] at h
  · simp [utf8Rest3] at h
  · simp [utf8Rest3] at h
  · simp only [utf8Rest3, List.cons_append] at h ⊢
    split_ifs at h ⊢ <;> simp_all

set_option maxHeartbeats 1000000 in
theorem utf8Group?_append {l r : Bytes} (X : Bytes) (h : utf8Group? l = some r) :
    utf8Group? (l ++ X) = some (r ++ X) := by
  rcases l with _ | ⟨b, rest⟩
  · simp [utf8Group?] at h
  · simp only [utf8Group?, List.cons_append] at h ⊢
    split_ifs at h ⊢
    · cases h
      rfl
    · exact utf8Rest1_append X h
    · exact utf8Rest2_append X h
    · exact utf8Rest2_append X h
    · exact utf8Rest2_append X h
    · exact utf8Rest2_append X h
    · exact utf8Rest3_append X h
    · exact utf8Rest3_append X h
    · exact utf8Rest3_append X h
    all_goals simp at h

theorem validUtf8_append : ∀ (a X : Bytes), validUtf8 a = true → validUtf8 X = true →
    validUtf8 (a ++ X) = true
  | [], X, _, hX => by simpa using hX
  | b :: rest, X, h, hX => by
    rw [validUtf8_cons] at h
    cases hg : utf8Group? (b :: rest) with
    | none =>
      rw [hg] at h
      simp at h
    | some r =>
      rw [hg] at h
      have hg2 := utf8Group?_append X hg
      rw [List.cons_append] at hg2 ⊢
      rw [validUtf8_cons, hg2]
      exact validUtf8_append r X h hX
termination_by a => a.length
decreasing_by
  have := utf8Group?_len hg
  simp only [List.length_cons] at this ⊢
  omega

theorem utf8Rest1_mem {c : Nat → Bool} {rest r : Bytes}
    (hc : ∀ x, c x = true → x < 256) (h : utf8Rest1 c rest = some r) :
    ∀ x ∈ rest, x ∈ r ∨ x < 256 := by
  rcases rest with _ | ⟨c1, r'⟩
  · simp [utf8Rest1] at h
  · simp only [utf8Rest1] at h
    split_ifs at h with h1
    cases h
    intro x hx
    rcases List.mem_cons.mp hx with rfl | hx'
    · exact Or.inr (hc x h1)
    · exact Or.inl hx'

theorem utf8Rest2_mem {c : Nat → Bool} {rest r : Bytes}
    (hc : ∀ x, c x = true → x < 256) (h : utf8Rest2 c rest = some r) :
    ∀ x ∈ rest, x ∈ r ∨ x < 256 := by
  rcases rest with _ | ⟨c1, _ | ⟨c2, r'⟩⟩
  · simp [utf8Rest2] at h
  · simp [utf8Rest2] at h
  · simp only [utf8Rest2] at h
    split_ifs at h with h1
    cases h
    simp only [Bool.and_eq_true, isContByte, decide_eq_true_eq] at h1
    intro x hx
    rcases List.mem_cons.mp hx with rfl | hx'
    · exact Or.inr (hc x h1.1)
    rcases List.mem_cons.mp hx' with rfl | hx''
    · exact Or.inr (by omega)
    · exact Or.inl hx''

theorem utf8Rest3_mem {c : Nat → Bool} {rest r : Bytes}
    (hc : ∀ x, c x = true → x < 256) (h : utf8Rest3 c rest = some r) :
    ∀ x ∈ rest, x ∈ r ∨ x < 256 := by
  rcases rest with _ | ⟨c1, _ | ⟨c2, _ | ⟨c3, r'⟩⟩⟩
  · simp [utf8Rest3] at h
  · simp [utf8Rest3] at h
  · simp [utf8Rest3] at h
  · simp only [utf8Rest3] at h
    split_ifs at h with h1
    cases h
    simp only [Bool.and_eq_true, isContByte, decide_eq_true_eq] at h1
    intro x hx
    rcases List.mem_cons.mp hx with rfl | hx'
    · exact Or.inr (hc x h1.1.1)
    rcases List.mem_cons.mp hx' with rfl | hx''
    · exact Or.inr (by omega)
    rcases List.mem_cons.mp hx'' with rfl | hx3
    · exact Or.inr (by omega)
    · exact Or.inl hx3

set_option maxHeartbeats 1000000 in
theorem utf8Group?_mem : ∀ {l r : Bytes}, utf8Group? l = some r →
    ∀ x ∈ l, x ∈ r ∨ x < 256 := by
  intro l r h
  rcases l with _ | ⟨b, rest⟩
  · simp [utf8Group?] at h
  · simp only [utf8Group?] at h
    split_ifs at h with h1 h2 h3 h4 h5 h6 h7 h8 h9
    · cases h
      intro x hx
      rcases List.mem_cons.mp hx with rfl | hx'
      · exact Or.inr (by omega)
      · exact Or.inl hx'
    · intro x hx
      rcases List.mem_cons.mp hx with rfl | hx'
      · exact Or.inr (by omega)
      · exact utf8Rest1_mem (fun y hy => by
          simp only [isContByte, Bool.and_eq_true, decide_eq_true_eq] at hy
          omega) h x hx'
    · intro x hx
      rcases List.mem_cons.mp hx with rfl | hx'
      · exact Or.inr (by omega)
      · exact utf8Rest2_mem (fun y hy => by
          simp only [Bool.and_eq_true, decide_eq_true_eq] at hy
          omega) h x hx'
    · intro x hx
      rcases List.mem_cons.mp hx with rfl | hx'
      · exact Or.inr (by omega)
      · exact utf8Rest2_mem (fun y hy => by
          simp only [isContByte, Bool.and_eq_true, decide_eq_true_eq] at hy
          omega) h x hx'
    · intro x hx
      rcases List.mem_cons.mp hx with rfl | hx'
      · exact Or.inr (by omega)
      · exact utf8Rest2_mem (fun y hy => by
          simp only [Bool.and_eq_true, decide_eq_true_eq] at hy
          omega) h x hx'
    · intro x hx
      rcases List.mem_cons.mp hx with rfl | hx'
      · exact Or.inr (by omega)
      · exact utf8Rest2_mem (fun y hy => by
          simp only [isContByte, Bool.and_eq_true, decide_eq_true_eq] at hy
          omega) h x hx'
    · intro x hx
      rcases List.mem_cons.mp hx with rfl | hx'
      · exact Or.inr (by omega)
      · exact utf8Rest3_mem (fun y hy => by
          simp only [Bool.and_eq_true, decide_eq_true_eq] at hy
          omega) h x hx'
    · intro x hx
      rcases List.mem_cons.mp hx with rfl | hx'
      · exact Or.inr (by omega)
      · exact utf8Rest3_mem (fun y hy => by
          simp only [isContByte, Bool.and_eq_true, decide_eq_true_eq] at hy
          omega) h x hx'
    · intro x hx
      rcases List.mem_cons.mp hx with rfl | hx'
      · exact Or.inr (by omega)
      · exact utf8Rest3_mem (fun y hy => by
          simp only [Bool.and_eq_true, decide_eq_true_eq] at hy
          omega) h x hx'
    all_goals simp at h

theorem validUtf8_lt : ∀ (l : Bytes), validUtf8 l = true → ∀ b ∈ l, b < 256
  | [], _, b, hb => by simp at hb
  | a :: rest, h, b, hb => by
    rw [validUtf8_cons] at h
    cases hg : utf8Group? (a :: rest) with
    | none =>
      rw [hg] at h
      simp at h
    | some r =>
      rw [hg] at h
      rcases utf8Group?_mem hg b hb with hmem | hlt
      · exact validUtf8_lt r h b hmem
      · exact hlt
termination_by l => l.length
decreasing_by
  have := utf8Group?_len hg
  simp only [List.length_cons] at this ⊢
  omega

/-! Validity of the serde escape output. -/

theorem validUtf8_nil : validUtf8 [] = true := rfl

theorem validUtf8_cons_low {b : Nat} (hb : b ≤ 127) {X : Bytes}
    (hX : validUtf8 X = true) : validUtf8 (b :: X) = true := by
  rw [validUtf8_cons]
  simp only [utf8Group?]
  rw [if_pos hb]
  exact hX

theorem hexDigitLower_le {n : Nat} (h : n < 16) : hexDigitLower n ≤ 127 := by
  unfold hexDigitLower
  split_ifs <;> omega

theorem escByte_low_append {a : Nat} (ha : a ≤ 127) {X : Bytes}
    (hX : validUtf8 X = true) : validUtf8 (escByte a ++ X) = true := by
  unfold escByte
  split_ifs with g1 g2 g3 g4 g5 g6 g7 g8
  · exact validUtf8_cons_low (by omega) (validUtf8_cons_low (by omega) hX)
  · exact validUtf8_cons_low (by omega) (validUtf8_cons_low (by omega) hX)
  · exact validUtf8_cons_low (by omega) (validUtf8_cons_low (by omega) hX)
  · exact validUtf8_cons_low (by omega) (validUtf8_cons_low (by omega) hX)
  · exact validUtf8_cons_low (by omega) (validUtf8_cons_low (by omega) hX)
  · exact validUtf8_cons_low (by omega) (validUtf8_cons_low (by omega) hX)
  · exact validUtf8_cons_low (by omega) (validUtf8_cons_low (by omega) hX)
  · exact validUtf8_cons_low (by omega) (validUtf8_cons_low (by omega)
      (validUtf8_cons_low (by omega) (validUtf8_cons_low (by omega)
        (validUtf8_cons_low (hexDigitLower_le (by omega))
          (validUtf8_cons_low (hexDigitLower_le (by omega)) hX)))))
  · exact validUtf8_cons_low ha hX

theorem escByte_high {b : Nat} (hb : 128 ≤ b) : escByte b = [b] := by
  unfold escByte
  split_ifs <;> first | rfl | omega

theorem escBytes_append_valid : ∀ (s X : Bytes), validUtf8 s = true → validUtf8 X = true →
    validUtf8 (escBytes s ++ X) = true
  | [], X, _, hX => by simpa [escBytes] using hX
  | a :: rest, X, h, hX => by
    rw [validUtf8_cons] at h
    cases hg : utf8Group? (a :: rest) with
    | none =>
      rw [hg] at h
      simp at h
    | some r =>
      rw [hg] at h
      simp only [utf8Group?] at hg
      split_ifs at hg with h1 h2 h3 h4 h5 h6 h7 h8 h9
      · cases hg
        have hsh : escBytes (a :: rest) ++ X = escByte a ++ (escBytes rest ++ X) := by
          simp [escBytes, List.append_assoc]
        rw [hsh]
        exact escByte_low_append h1 (escBytes_append_valid rest X h hX)
      · rcases rest with _ | ⟨c1, r'⟩
        · simp [utf8Rest1] at hg
        · simp only [utf8Rest1] at hg
          split_ifs at hg with hc1
          cases hg
          simp only [isContByte, Bool.and_eq_true, decide_eq_true_eq] at hc1
          have hsh : escBytes (a :: c1 :: r) ++ X = a :: c1 :: (escBytes r ++ X) := by
            simp [escBytes, escByte_high (show 128 ≤ a by omega),
              escByte_high (show 128 ≤ c1 by omega), List.append_assoc]
          rw [hsh, validUtf8_cons]
          simp only [utf8Group?]
          rw [if_neg h1, if_pos h2]
          simp only [utf8Rest1]
          rw [if_pos (by simp only [isContByte, Bool.and_eq_true, decide_eq_true_eq]; omega)]
          exact escBytes_append_valid r X h hX
      · rcases rest with _ | ⟨c1, _ | ⟨c2, r'⟩⟩
        · simp [utf8Rest2] at hg
        · simp [utf8Rest2] at hg
        · simp only [utf8Rest2] at hg
          split_ifs at hg with hc1
          cases hg
          simp only [isContByte, Bool.and_eq_true, decide_eq_true_eq] at hc1
          have hsh : escBytes (a :: c1 :: c2 :: r) ++ X = a :: c1 :: c2 :: (escBytes r ++ X) := by
            simp [escBytes, escByte_high (show 128 ≤ a by omega),
              escByte_high (show 128 ≤ c1 by omega),
              escByte_high (show 128 ≤ c2 by omega), List.append_assoc]
          rw [hsh, validUtf8_cons]
          simp only [utf8Group?]
          rw [if_neg h1, if_neg h2, if_pos h3]
          simp only [utf8Rest2]
          rw [if_pos (by simp only [isContByte, Bool.and_eq_true, decide_eq_true_eq]; omega)]
          exact escBytes_append_valid r X h hX
      · rcases rest with _ | ⟨c1, _ | ⟨c2, r'⟩⟩
        · simp [utf8Rest2] at hg
        · simp [utf8Rest2] at hg
        · simp only [utf8Rest2] at hg
          split_ifs at hg with hc1
          cases hg
          simp only [isContByte, Bool.and_eq_true, decide_eq_true_eq] at hc1
          have hsh : escBytes (a :: c1 :: c2 :: r) ++ X = a :: c1 :: c2 :: (escBytes r ++ X) := by
            simp [escBytes, escByte_high (show 128 ≤ a by omega),
              escByte_high (show 128 ≤ c1 by omega),
              escByte_high (show 128 ≤ c2 by omega), List.append_assoc]
          rw [hsh, validUtf8_cons]
          simp only [utf8Group?]
          rw [if_neg h1, if_neg h2, if_neg h3, if_pos h4]
          simp only [utf8Rest2]
          rw [if_pos (by simp only [isContByte, Bool.and_eq_true, decide_eq_true_eq]; omega)]
          exact escBytes_append_valid r X h hX
      · rcases rest with _ | ⟨c1, _ | ⟨c2, r'⟩⟩
        · simp [utf8Rest2] at hg
        · simp [utf8Rest2] at hg
        · simp only [utf8Rest2] at hg
          split_ifs at hg with hc1
          cases hg
          simp only [isContByte, Bool.and_eq_true, decide_eq_true_eq] at hc1
          have hsh : escBytes (a :: c1 :: c2 :: r) ++ X = a :: c1 :: c2 :: (escBytes r ++ X) := by
            simp [escBytes, escByte_high (show 128 ≤ a by omega),
              escByte_high (show 128 ≤ c1 by omega),
              escByte_high (show 128 ≤ c2 by omega), List.append_assoc]
          rw [hsh, validUtf8_cons]
          simp only [utf8Group?]
          rw [if_neg h1, if_neg h2, if_neg h3, if_neg h4, if_pos h5]
          simp only [utf8Rest2]
          rw [if_pos (by simp only [isContByte, Bool.and_eq_true, decide_eq_true_eq]; omega)]
          exact escBytes_append_valid r X h hX
      · rcases rest with _ | ⟨c1, _ | ⟨c2, r'⟩⟩
        · simp [utf8Rest2] at hg
        · simp [utf8Rest2] at hg
        · simp only [utf8Rest2] at hg
          split_ifs at hg with hc1
          cases hg
          simp only [isContByte, Bool.and_eq_true, decide_eq_true_eq] at hc1
          have hsh : escBytes (a :: c1 :: c2 :: r) ++ X = a :: c1 :: c2 :: (escBytes r ++ X) := by
            simp [escBytes, escByte_high (show 128 ≤ a by omega),
              escByte_high (show 128 ≤ c1 by omega),
              escByte_high (show 128 ≤ c2 by omega), List.append_assoc]
          rw [hsh, validUtf8_cons]
          simp only [utf8Group?]
          rw [if_neg h1, if_neg h2, if_neg h3, if_neg h4, if_neg h5, if_pos h6]
          simp only [utf8Rest2]
          rw [if_pos (by simp only [isContByte, Bool.and_eq_true, decide_eq_true_eq]; omega)]
          exact escBytes_append_valid r X h hX
      · rcases rest with _ | ⟨c1, _ | ⟨c2, _ | ⟨c3, r'⟩⟩⟩
        · simp [utf8Rest3] at hg
        · simp [utf8Rest3] at hg
        · simp [utf8Rest3] at hg
        · simp only [utf8Rest3] at hg
          split_ifs at hg with hc1
          cases hg
          simp only [isContByte, Bool.and_eq_true, decide_eq_true_eq] at hc1
          have hsh : escBytes (a :: c1 :: c2 :: c3 :: r) ++ X
              = a :: c1 :: c2 :: c3 :: (escBytes r ++ X) := by
            simp [escBytes, escByte_high (show 128 ≤ a by omega),
              escByte_high (show 128 ≤ c1 by omega),
              escByte_high (show 128 ≤ c2 by omega),
              escByte_high (show 128 ≤ c3 by omega), List.append_assoc]
          rw [hsh, validUtf8_cons]
          simp only [utf8Group?]
          rw [if_neg h1, if_neg h2, if_neg h3, if_neg h4, if_neg h5, if_neg h6, if_pos h7]
          simp only [utf8Rest3]
          rw [if_pos (by simp only [isContByte, Bool.and_eq_true, decide_eq_true_eq]; omega)]
          exact escBytes_append_valid r X h hX
      · rcases rest with _ | ⟨c1, _ | ⟨c2, _ | ⟨c3, r'⟩⟩⟩
        · simp [utf8Rest3] at hg
        · simp [utf8Rest3] at hg
        · simp [utf8Rest3] at hg
        · simp only [utf8Rest3] at hg
          split_ifs at hg with hc1
          cases hg
          simp only [isContByte, Bool.and_eq_true, decide_eq_true_eq] at hc1
          have hsh : escBytes (a :: c1 :: c2 :: c3 :: r) ++ X
              = a :: c1 :: c2 :: c3 :: (escBytes r ++ X) := by
            simp [escBytes, escByte_high (show 128 ≤ a by omega),
              escByte_high (show 128 ≤ c1 by omega),
              escByte_high (show 128 ≤ c2 by omega),
              escByte_high (show 128 ≤ c3 by omega), List.append_assoc]
          rw [hsh, validUtf8_cons]
          simp only [utf8Group?]
          rw [if_neg h1, if_neg h2, if_neg h3, if_neg h4, if_neg h5, if_neg h6, if_neg h7,
            if_pos h8]
          simp only [utf8Rest3]
          rw [if_pos (by simp only [isContByte, Bool.and_eq_true, decide_eq_true_eq]; omega)]
          exact escBytes_append_valid r X h hX
      · rcases rest with _ | ⟨c1, _ | ⟨c2, _ | ⟨c3, r'⟩⟩⟩
        · simp [utf8Rest3] at hg
        · simp [utf8Rest3] at hg
        · simp [utf8Rest3] at hg
        · simp only [utf8Rest3] at hg
          split_ifs at hg with hc1
          cases hg
          simp only [isContByte, Bool.and_eq_true, decide_eq_true_eq] at hc1
          have hsh : escBytes (a :: c1 :: c2 :: c3 :: r) ++ X
              = a :: c1 :: c2 :: c3 :: (escBytes r ++ X) := by
            simp [escBytes, escByte_high (show 128 ≤ a by omega),
              escByte_high (show 128 ≤ c1 by omega),
              escByte_high (show 128 ≤ c2 by omega),
              escByte_high (show 128 ≤ c3 by omega), List.append_assoc]
          rw [hsh, validUtf8_cons]
          simp only [utf8Group?]
          rw [if_neg h1, if_neg h2, if_neg h3, if_neg h4, if_neg h5, if_neg h6, if_neg h7,
            if_neg h8, if_pos h9]
          simp only [utf8Rest3]
          rw [if_pos (by simp only [isContByte, Bool.and_eq_true, decide_eq_true_eq]; omega)]
          exact escBytes_append_valid r X h hX
      all_goals simp at hg
termination_by s => s.length
decreasing_by
  all_goals
    first
    | (simp only [List.length_cons]
       omega)
    | (have hlen := utf8Group?_len (by assumption : utf8Group? _ = some _)
       simp only [List.length_cons] at hlen ⊢
       omega)

/-! The base64 round trip for the standard alphabet. -/

theorem stdInv_stdAlpha : ∀ i, i < 64 → stdInv (stdAlphaChar i) = some i := by decide

theorem stdAlpha_ne_pad : ∀ i, i < 64 → ¬ stdAlphaChar i = 61 := by decide

theorem b64_roundtrip : ∀ l : Bytes, (∀ b ∈ l, b < 256) →
    b64decode stdInv (b64encode stdAlphaChar l) = some l
  | [], _ => rfl
  | [a], h => by
    have ha : a < 256 := h a (by simp)
    simp only [b64encode, b64decode]
    rw [stdInv_stdAlpha _ (by omega), stdInv_stdAlpha _ (by omega)]
    simp [Nat.mul_mod_left]
    omega
  | [a, b], h => by
    have ha : a < 256 := h a (by simp)
    have hb : b < 256 := h b (by simp)
    simp only [b64encode, b64decode]
    rw [stdInv_stdAlpha _ (by omega), stdInv_stdAlpha _ (by omega),
      stdInv_stdAlpha _ (by omega)]
    have hne2 : ¬ stdAlphaChar (b % 16 * 4) = 61 := stdAlpha_ne_pad _ (by omega)
    simp [Nat.mul_mod_left, hne2]
    omega
  | a :: b :: c :: rest, h => by
    have ha : a < 256 := h a (by simp)
    have hb : b < 256 := h b (by simp)
    have hc : c < 256 := h c (by simp)
    have hrest : ∀ x ∈ rest, x < 256 := fun x hx => h x (by simp [hx])
    simp only [b64encode, b64decode]
    rw [stdInv_stdAlpha _ (by omega), stdInv_stdAlpha _ (by omega),
      stdInv_stdAlpha _ (by omega), stdInv_stdAlpha _ (by omega)]
    have hne : ¬ stdAlphaChar (c % 64) = 61 := stdAlpha_ne_pad _ (by omega)
    simp [hne, b64_roundtrip rest hrest]
    omega

/-! The JSON string-literal round trip: parsing an escaped body plus
closing quote returns the original bytes. -/

theorem hexVal_hexDigitLower : ∀ n, n < 16 → hexVal (hexDigitLower n) = some n := by decide

theorem parseStringBody_esc : ∀ (s r : Bytes),
    parseStringBody (escBytes s ++ (34 :: r)) = some (s, r) := by
  intro s
  induction s with
  | nil =>
    intro r
    rw [show escBytes [] ++ (34 :: r) = 34 :: r from rfl, parseStringBody.eq_def]
    simp
  | cons b s' ih =>
    intro r
    have hshape : escBytes (b :: s') ++ (34 :: r) = escByte b ++ (escBytes s' ++ (34 :: r)) := by
      simp [escBytes, List.append_assoc]
    rw [hshape]
    by_cases h34 : b = 34
    · subst h34
      rw [show escByte 34 = [92, 34] from rfl]
      simp only [List.cons_append, List.nil_append]
      rw [parseStringBody.eq_def]
      simp [shortEscape, ih r]
    · by_cases h92 : b = 92
      · subst h92
        rw [show escByte 92 = [92, 92] from rfl]
        simp only [List.cons_append, List.nil_append]
        rw [parseStringBody.eq_def]
        simp [shortEscape, ih r]
      · by_cases h8 : b = 8
        · subst h8
          rw [show escByte 8 = [92, 98] from rfl]
          simp only [List.cons_append, List.nil_append]
          rw [parseStringBody.eq_def]
          simp [shortEscape, ih r]
        · by_cases h9 : b = 9
          · subst h9
            rw [show escByte 9 = [92, 116] from rfl]
            simp only [List.cons_append, List.nil_append]
            rw [parseStringBody.eq_def]
            simp [shortEscape, ih r]
          · by_cases h10 : b = 10
            · subst h10
              rw [show escByte 10 = [92, 110] from rfl]
              simp only [List.cons_append, List.nil_append]
              rw [parseStringBody.eq_def]
              simp [shortEscape, ih r]
            · by_cases h12 : b = 12
              · subst h12
                rw [show escByte 12 = [92, 102] from rfl]
                simp only [List.cons_append, List.nil_append]
                rw [parseStringBody.eq_def]
                simp [shortEscape, ih r]
              · by_cases h13 : b = 13
                · subst h13
                  rw [show escByte 13 = [92, 114] from rfl]
                  simp only [List.cons_append, List.nil_append]
                  rw [parseStringBody.eq_def]
                  simp [shortEscape, ih r]
                · by_cases hlt : b < 32
                  · have he : escByte b =
                        [92, 117, 48, 48, hexDigitLower (b / 16), hexDigitLower (b % 16)] := by
                      unfold escByte
                      rw [if_neg h34, if_neg h92, if_neg h8, if_neg h9, if_neg h10,
                        if_neg h12, if_neg h13, if_pos hlt]
                    rw [he]
                    have hd1 := hexVal_hexDigitLower (b / 16) (by omega)
                    have hd2 := hexVal_hexDigitLower (b % 16) (by omega)
                    have h48 : hexVal 48 = some 0 := by decide
                    have hvv : 0 * 4096 + 0 * 256 + b / 16 * 16 + b % 16 = b := by omega
                    have hsur : ¬ (55296 ≤ 0 * 4096 + 0 * 256 + b / 16 * 16 + b % 16 ∧
                        0 * 4096 + 0 * 256 + b / 16 * 16 + b % 16 ≤ 57343) := by omega
                    have henc : utf8EncBytes (0 * 4096 + 0 * 256 + b / 16 * 16 + b % 16) = [b] := by
                      rw [hvv]
                      unfold utf8EncBytes
                      rw [if_pos (by omega)]
                    simp only [List.cons_append, List.nil_append]
                    rw [parseStringBody.eq_def]
                    simp [hd1, hd2, h48, hsur, henc, hvv, ih r]
                    refine ⟨by omega, ?_⟩
                    have hb : b / 16 * 16 + b % 16 = b := by omega
                    rw [hb]
                    have hone : utf8EncBytes b = [b] := by
                      unfold utf8EncBytes
                      rw [if_pos (by omega)]
                    simp [hone]
                  · have he : escByte b = [b] := by
                      unfold escByte
                      rw [if_neg h34, if_neg h92, if_neg h8, if_neg h9, if_neg h10,
                        if_neg h12, if_neg h13, if_neg hlt]
                    rw [he]
                    simp only [List.cons_append, List.nil_append]
                    rw [parseStringBody.eq_def]
                    simp [h34, h92, ih r]

/-! Parsing the serialized object back: one `"key":"value"` unit at a
time. -/

theorem skipWs_cons {b : Nat} (h : isJsonWs b = false) (r : Bytes) :
    skipWs (b :: r) = b :: r := by
  simp [skipWs, List.dropWhile, h]

theorem parseValue_strLit (f : Nat) (v r : Bytes) :
    parseValue (f + 1) (34 :: (escBytes v ++ (34 :: r))) = some (.str v, r) := by
  rw [parseValue.eq_def]
  simp [skipWs, List.dropWhile_cons, isJsonWs, parseStringBody_esc v r]

theorem parseObjFields_step (fuel : Nat) (k v r : Bytes) (h : 2 ≤ fuel) :
    parseObjFields fuel
        (34 :: (escBytes k ++ (34 :: 58 :: 34 :: (escBytes v ++ (34 :: 44 :: r))))) =
      match parseObjFields (fuel - 1) r with
      | some (fs, r5) => some ((k, Json.str v) :: fs, r5)
      | none => none := by
  obtain ⟨f, rfl⟩ : ∃ f, fuel = f + 2 := ⟨fuel - 2, by omega⟩
  rw [show f + 2 - 1 = f + 1 from rfl]
  rw [show f + 2 = (f + 1) + 1 from rfl, parseObjFields.eq_def]
  simp [skipWs, List.dropWhile_cons, isJsonWs,
    parseStringBody_esc k (58 :: 34 :: (escBytes v ++ (34 :: 44 :: r))),
    parseValue_strLit f v (44 :: r)]

theorem parseObjFields_last (fuel : Nat) (k v r : Bytes) (h : 2 ≤ fuel) :
    parseObjFields fuel
        (34 :: (escBytes k ++ (34 :: 58 :: 34 :: (escBytes v ++ (34 :: 125 :: r))))) =
      some ([(k, Json.str v)], r) := by
  obtain ⟨f, rfl⟩ : ∃ f, fuel = f + 2 := ⟨fuel - 2, by omega⟩
  rw [show f + 2 = (f + 1) + 1 from rfl, parseObjFields.eq_def]
  simp [skipWs, List.dropWhile_cons, isJsonWs,
    parseStringBody_esc k (58 :: 34 :: (escBytes v ++ (34 :: 125 :: r))),
    parseValue_strLit f v (125 :: r)]

theorem vmess_to_json_string_len (c : VmessConfig) :
    12 ≤ (vmess_to_json_string c).length := by
  simp [vmess_to_json_string, jsonField, strLit, List.length_append]
  omega

theorem parseValue_vmess (c : VmessConfig) (L : Nat) (h : 12 ≤ L) :
    parseValue (L + 1) (vmess_to_json_string c) =
      some (.obj (vmessJsonFields c), []) := by
  rw [parseValue.eq_def]
  simp only [vmess_to_json_string, jsonField, strLit, List.append_assoc, List.cons_append,
    List.nil_append, List.singleton_append]
  simp (disch := omega) [skipWs, List.dropWhile_cons, isJsonWs, parseObjFields_step,
    parseObjFields_last, vmessJsonFields]

theorem json_from_bytes_vmess (c : VmessConfig) :
    json_from_bytes (vmess_to_json_string c) = some (Json.obj (vmessJsonFields c)) := by
  unfold json_from_bytes
  obtain ⟨L, hL⟩ : ∃ L, (vmess_to_json_string c).length = L := ⟨_, rfl⟩
  rw [hL, parseValue_vmess c L (hL ▸ vmess_to_json_string_len c)]
  simp [skipWs]

theorem vmess_from_json_eq (c : VmessConfig) :
    vmess_from_json (vmess_to_json_string c) = some c := by
  unfold vmess_from_json
  rw [json_from_bytes_vmess]
  simp [getStrField, vmessJsonFields, ascii, List.lookup]

/-! Validity of the serialized JSON: the wire bytes are UTF-8 whenever
every field's bytes are (always true of data coming from Rust `String`s). -/

theorem strLit_valid (s X : Bytes) (hs : validUtf8 s = true) (hX : validUtf8 X = true) :
    validUtf8 (strLit s ++ X) = true := by
  have h1 : validUtf8 (34 :: X) = true := validUtf8_cons_low (by omega) hX
  have h2 := escBytes_append_valid s (34 :: X) hs h1
  have hsh : strLit s ++ X = 34 :: (escBytes s ++ (34 :: X)) := by
    simp [strLit, List.append_assoc]
  rw [hsh]
  exact validUtf8_cons_low (by omega) h2

theorem jsonField_valid (k : String) (v X : Bytes) (hk : validUtf8 (ascii k) = true)
    (hv : validUtf8 v = true) (hX : validUtf8 X = true) :
    validUtf8 (jsonField k v ++ X) = true := by
  have hsh : jsonField k v ++ X = strLit (ascii k) ++ (58 :: (strLit v ++ X)) := by
    simp [jsonField, List.append_assoc]
  rw [hsh]
  exact strLit_valid _ _ hk (validUtf8_cons_low (by omega) (strLit_valid _ _ hv hX))

theorem vmess_to_json_string_valid (c : VmessConfig)
    (h : ∀ f ∈ vmessFieldValues c, validUtf8 f = true) :
    validUtf8 (vmess_to_json_string c) = true := by
  have hv := h c.version (by simp [vmessFieldValues])
  have hps := h c.remarks (by simp [vmessFieldValues])
  have hadd := h c.address (by simp [vmessFieldValues])
  have hport := h c.port (by simp [vmessFieldValues])
  have hid := h c.user_id (by simp [vmessFieldValues])
  have haid := h c.alter_id (by simp [vmessFieldValues])
  have hnet := h c.network (by simp [vmessFieldValues])
  have htyp := h c.header_type (by simp [vmessFieldValues])
  have hhost := h c.host (by simp [vmessFieldValues])
  have hpath := h c.path (by simp [vmessFieldValues])
  have htls := h c.tls (by simp [vmessFieldValues])
  have hsh : vmess_to_json_string c =
      123 :: (jsonField "v" c.version ++ (44 :: (jsonField "ps" c.remarks
        ++ (44 :: (jsonField "add" c.address ++ (44 :: (jsonField "port" c.port
        ++ (44 :: (jsonField "id" c.user_id ++ (44 :: (jsonField "aid" c.alter_id
        ++ (44 :: (jsonField "net" c.network ++ (44 :: (jsonField "type" c.header_type
        ++ (44 :: (jsonField "host" c.host ++ (44 :: (jsonField "path" c.path
        ++ (44 :: (jsonField "tls" c.tls ++ [125]))))))))))))))))))))) := by
    simp [vmess_to_json_string, List.append_assoc]
  rw [hsh]
  refine validUtf8_cons_low (by omega) ?_
  refine jsonField_valid _ _ _ (by decide) hv ?_
  refine validUtf8_cons_low (by omega) ?_
  refine jsonField_valid _ _ _ (by decide) hps ?_
  refine validUtf8_cons_low (by omega) ?_
  refine jsonField_valid _ _ _ (by decide) hadd ?_
  refine validUtf8_cons_low (by omega) ?_
  refine jsonField_valid _ _ _ (by decide) hport ?_
  refine validUtf8_cons_low (by omega) ?_
  refine jsonField_valid _ _ _ (by decide) hid ?_
  refine validUtf8_cons_low (by omega) ?_
  refine jsonField_valid _ _ _ (by decide) haid ?_
  refine validUtf8_cons_low (by omega) ?_
  refine jsonField_valid _ _ _ (by decide) hnet ?_
  refine validUtf8_cons_low (by omega) ?_
  refine jsonField_valid _ _ _ (by decide) htyp ?_
  refine validUtf8_cons_low (by omega) ?_
  refine jsonField_valid _ _ _ (by decide) hhost ?_
  refine validUtf8_cons_low (by omega) ?_
  refine jsonField_valid _ _ _ (by decide) hpath ?_
  refine validUtf8_cons_low (by omega) ?_
  have : validUtf8 (jsonField "tls" c.tls ++ [125]) = true :=
    jsonField_valid _ _ _ (by decide) htls (validUtf8_cons_low (by omega) validUtf8_nil)
  simpa using this

/-- Shared round-trip engine: a config whose field bytes are valid UTF-8
(as any Rust `String` data is) survives serialize, base64-encode,
prefix, `parse_vmess_config`. -/
theorem vmess_roundtrip_aux (c : VmessConfig)
    (h : ∀ f ∈ vmessFieldValues c, validUtf8 f = true) :
    parse_vmess_config (mk_vmess_url c) = .ok (some c) := by
  have hvalid : validUtf8 (vmess_to_json_string c) = true := vmess_to_json_string_valid c h
  have hlt : ∀ b ∈ vmess_to_json_string c, b < 256 := validUtf8_lt _ hvalid
  have hdec : b64decode stdInv (b64encode stdAlphaChar (vmess_to_json_string c)) =
      some (vmess_to_json_string c) := b64_roundtrip _ hlt
  unfold parse_vmess_config mk_vmess_url
  have hpre : (ascii "vmess://").isPrefixOf
      (ascii "vmess://" ++ b64encode stdAlphaChar (vmess_to_json_string c)) = true := by
    rw [List.isPrefixOf_iff_prefix]
    exact List.prefix_append _ _
  have hslice : sliceFrom
      (ascii "vmess://" ++ b64encode stdAlphaChar (vmess_to_json_string c)) 8 =
      .ok (b64encode stdAlphaChar (vmess_to_json_string c)) := by
    rw [sliceFrom_ok (by simp [ascii])]
    rw [show (8 : Nat) = (ascii "vmess://").length from rfl, List.drop_left]
  simp [hpre, hslice, hdec, hvalid, vmess_from_json_eq, Bind.bind, Except.bind, pure, Except.pure]

/-- C5: for every VmessConfig value (field bytes valid UTF-8, as the
bytes of any Rust `String` are), serializing to the renamed-field JSON,
encoding with standard base64, prefixing `vmess://`, and applying
`parse_vmess_config` yields `Some` of an equal descriptor: the round
trip is the identity. -/
theorem c5_vmess_roundtrip (c : VmessConfig)
    (h : ∀ f ∈ vmessFieldValues c, validUtf8 f = true) :
    parse_vmess_config (mk_vmess_url c) = .ok (some c) :=
  vmess_roundtrip_aux c h

theorem c5_vmess_roundtrip_witness :
    (∀ f ∈ vmessFieldValues ⟨ascii "2", ascii "test-node", ascii "example.com",
        ascii "443", ascii "a3482e88-686a-4a58-8126-99c9df64b7bf", ascii "0",
        ascii "ws", ascii "none", ascii "example.com", ascii "/path", ascii "tls"⟩,
      validUtf8 f = true) ∧
    parse_vmess_config (mk_vmess_url ⟨ascii "2", ascii "test-node", ascii "example.com",
        ascii "443", ascii "a3482e88-686a-4a58-8126-99c9df64b7bf", ascii "0",
        ascii "ws", ascii "none", ascii "example.com", ascii "/path", ascii "tls"⟩) =
      .ok (some ⟨ascii "2", ascii "test-node", ascii "example.com",
        ascii "443", ascii "a3482e88-686a-4a58-8126-99c9df64b7bf", ascii "0",
        ascii "ws", ascii "none", ascii "example.com", ascii "/path", ascii "tls"⟩) :=
  ⟨by decide, c5_vmess_roundtrip _ (by decide)⟩

/-- C10: `parse_vmess_config` performs no semantic validation. Whenever
the base64 payload decodes to a JSON object with the eleven required
string fields it returns `Some` descriptor, even when the port string is
non-numeric (`not-a-number`), denotes a value outside 1..=65535
(`99999`), or the address is empty; no Vmess validator exists in the
code to drop such descriptors. -/
theorem c10_vmess_no_semantic_validation :
    parse_vmess_config (mk_vmess_url ⟨ascii "2", ascii "r1", ascii "srv.example",
        ascii "not-a-number", ascii "id-1", ascii "0", ascii "tcp", ascii "none",
        ascii "h", ascii "/", ascii ""⟩) =
      .ok (some ⟨ascii "2", ascii "r1", ascii "srv.example",
        ascii "not-a-number", ascii "id-1", ascii "0", ascii "tcp", ascii "none",
        ascii "h", ascii "/", ascii ""⟩) ∧
    parse_vmess_config (mk_vmess_url ⟨ascii "2", ascii "r2", ascii "srv.example",
        ascii "99999", ascii "id-2", ascii "0", ascii "tcp", ascii "none",
        ascii "h", ascii "/", ascii ""⟩) =
      .ok (some ⟨ascii "2", ascii "r2", ascii "srv.example",
        ascii "99999", ascii "id-2", ascii "0", ascii "tcp", ascii "none",
        ascii "h", ascii "/", ascii ""⟩) ∧
    parse_vmess_config (mk_vmess_url ⟨ascii "2", ascii "r3", ascii "",
        ascii "443", ascii "id-3", ascii "0", ascii "tcp", ascii "none",
        ascii "h", ascii "/", ascii ""⟩) =
      .ok (some ⟨ascii "2", ascii "r3", ascii "",
        ascii "443", ascii "id-3", ascii "0", ascii "tcp", ascii "none",
        ascii "h", ascii "/", ascii ""⟩) :=
  ⟨vmess_roundtrip_aux _ (by decide), vmess_roundtrip_aux _ (by decide),
    vmess_roundtrip_aux _ (by decide)⟩
